import Mathlib

/-!
# Verification of the zhdict XLSX reader

A shallow embedding of the XLSX document-ingestion pipeline of the zhdict
repository (src/xlsx.c, src/xml.c, headers xlsx.h / xml.h), together with
theorems settling the specification claims.

Modelling conventions:
* C strings are `List Char` (`CStr`); none of the strings handled by the
  program contain embedded NUL bytes, so a C string is its character list.
* `size_t` arithmetic that can wrap (the column-name length subtraction)
  is modelled with an explicit `% 2^64` (`sub64`); plain counters that can
  never approach `2^64` are `Nat`.
* `malloc` blocks are modelled by an explicit memory oracle passed as a
  parameter (`mem`, `cmem`): the oracle supplies the arbitrary initial
  contents of the allocation, so theorems can quantify over what
  uninitialized memory happens to hold.  Allocation failure (`malloc`
  returning NULL) is out of scope, except where the source itself makes a
  `calloc` of a wrapped negative count fail.
* XML documents (libxml2 trees) are `XNode`: a node has a name, ordered
  attributes, optional text content and ordered children.  libxml2 text
  nodes carry the name "text" and the content; this is what the source's
  `"si.t.text"`-style paths rely on.
* `double` values are modelled as exact rationals: the claims about
  numeric inference are about which variant is selected and which decimal
  literal is parsed, not about IEEE rounding.
-/

/-- A C string: list of (non-NUL) characters. -/
abbrev CStr := List Char

/-- Embed a Lean string literal as a C string. -/
def cs (s : String) : CStr := s.data

/-- `size_t` subtraction `a - b` with 64-bit wraparound (the source computes
`strlen(col_name) - row_namelen` in `size_t`). -/
def sub64 (a b : Nat) : Nat := (((a : Int) - (b : Int)) % ((2 : Int) ^ 64)).toNat

/-- C `isdigit` for the decimal digits. -/
def isDigitC (c : Char) : Bool := decide ('0' ≤ c) && decide (c ≤ '9')

/-- C `isspace` in the default locale. -/
def isSpaceC (c : Char) : Bool :=
  c = ' ' || c = '\t' || c = '\n' || c = '\x0d' || c = '\x0b' || c = '\x0c'

/-- Numeric value of a digit list (most significant first). -/
def natOfDigits : CStr → Nat → Nat
  | [], acc => acc
  | c :: rest, acc => natOfDigits rest (acc * 10 + (c.toNat - 48))

/-- `strncmp(a, b, n) == 0` for NUL-free C strings: the first `n` characters
agree (comparison stops at the shorter string's end, which then disagrees
with a longer remainder). -/
def strncmpEq (a b : CStr) (n : Nat) : Bool := decide (a.take n = b.take n)

/-- `strrchr(v, '/')` tail: the component after the last slash, or `"?"` when
there is no slash (as in the `Type`-attribute handling of `xlsx_doc_at`). -/
def lastComp (v : CStr) : CStr :=
  if v.contains '/' then ((v.reverse.takeWhile (fun c => c ≠ '/')).reverse) else cs "?"

/-- `strtol`/`strtoll` base 10: skip spaces, optional sign, longest digit run.
Returns the parsed value and the suffix at `endptr`; when no digits are
consumed the value is 0 and `endptr` is the original pointer.  The result is
clamped to the `long long` range as the C function does. -/
def strtoll (s : CStr) : Int × CStr :=
  let t := s.dropWhile isSpaceC
  let signed : Int × CStr :=
    match t with
    | '-' :: r => (-1, r)
    | '+' :: r => (1, r)
    | _ => (1, t)
  let ds := signed.2.takeWhile isDigitC
  let rest := signed.2.dropWhile isDigitC
  if ds = [] then (0, s)
  else
    let v : Int := signed.1 * (natOfDigits ds 0 : Int)
    (max (-(2 ^ 63)) (min (2 ^ 63 - 1) v), rest)

/-- Cast of a C integer to `size_t` (the source stores `strtoll` results into
`size_t` fields). -/
def toSizeT (v : Int) : Nat := (v % ((2 : Int) ^ 64)).toNat

/-- `strtod` on the decimal forms the program can meet: skip spaces, optional
sign, digits, optional point and fraction digits, optional exponent.  The
value is returned as an exact rational; when no digits are consumed the value
is 0 and `endptr` is the original pointer.  (Hex floats and inf/nan, which no
claim exercises, are not modelled.) -/
def strtod (s : CStr) : Rat × CStr :=
  let t := s.dropWhile isSpaceC
  let signed : Rat × CStr :=
    match t with
    | '-' :: r => (-1, r)
    | '+' :: r => (1, r)
    | _ => (1, t)
  let ip := signed.2.takeWhile isDigitC
  let r1 := signed.2.dropWhile isDigitC
  let frac : Option (Nat × Nat × CStr) :=
    match r1 with
    | '.' :: r2 => some (natOfDigits (r2.takeWhile isDigitC) 0,
        (r2.takeWhile isDigitC).length, r2.dropWhile isDigitC)
    | _ => none
  match frac with
  | some (fv, fn, r3) =>
      if ip = [] && fn = 0 then (0, s)
      else
        let mant : Rat := (natOfDigits ip 0 : Rat) + (fv : Rat) / ((10 : Rat) ^ fn)
        match r3 with
        | 'e' :: r4 => strtodExp (signed.1 * mant) r4 r3
        | 'E' :: r4 => strtodExp (signed.1 * mant) r4 r3
        | _ => (signed.1 * mant, r3)
  | none =>
      if ip = [] then (0, s)
      else
        match r1 with
        | 'e' :: r4 => strtodExp (signed.1 * (natOfDigits ip 0 : Rat)) r4 r1
        | 'E' :: r4 => strtodExp (signed.1 * (natOfDigits ip 0 : Rat)) r4 r1
        | _ => ((signed.1 * (natOfDigits ip 0 : Rat) : Rat), r1)
where
  /-- Exponent part after the mantissa: `e`/`E`, optional sign, digits; if the
  digits are missing the exponent is not consumed (`endptr` stays after the
  mantissa, `noExp`). -/
  strtodExp (mant : Rat) (afterE : CStr) (noExp : CStr) : Rat × CStr :=
    let signed : Int × CStr :=
      match afterE with
      | '-' :: r => (-1, r)
      | '+' :: r => (1, r)
      | _ => (1, afterE)
    let ds := signed.2.takeWhile isDigitC
    let rest := signed.2.dropWhile isDigitC
    if ds = [] then (mant, noExp)
    else
      let e : Int := signed.1 * (natOfDigits ds 0 : Int)
      (mant * (10 : Rat) ^ e, rest)

/-- A libxml2 tree node: element name (text nodes carry the libxml name
"text"), ordered attributes with their values, optional text content, ordered
children. -/
inductive XNode where
  | mk (name : CStr) (attrs : List (CStr × CStr)) (content : Option CStr)
       (children : List XNode)
deriving Repr

/-- Node name (`node->name`). -/
def XNode.name : XNode → CStr
  | .mk n _ _ _ => n

/-- Node attributes (`node->properties`, in document order). -/
def XNode.attrs : XNode → List (CStr × CStr)
  | .mk _ a _ _ => a

/-- Node text content (`node->content`, populated on text nodes). -/
def XNode.content : XNode → Option CStr
  | .mk _ _ c _ => c

/-- Node children (`node->children`, in document order). -/
def XNode.children : XNode → List XNode
  | .mk _ _ _ cs => cs

/-- `XML_MAX_DEPTH` from xml.h. -/
def XML_MAX_DEPTH : Nat := 1000

/-- The sibling loop of `xml_visit_tree` over a remaining child list,
carrying the running sibling index `n`.  Descent into a child's subtree is
delegated to `recur` (instantiated by `xmlVisitTreeFuel` with the visit at
the next depth), so that the loop itself is structurally recursive on the
sibling list. -/
def visitSibs {σ : Type} (blk : σ → XNode → Nat → Nat → σ × Int)
    (recur : σ → XNode → σ × Int) (s : σ) :
    List XNode → Nat → Nat → σ × Int
  | [], _, _ => (s, 0)
  | c :: rest, depth, n =>
    let pr := blk s c (depth + 1) n
    if pr.2 < 0 then pr
    else if 0 < pr.2 then visitSibs blk recur pr.1 rest depth (n + 1)
    else if XML_MAX_DEPTH ≤ depth + 1 then (pr.1, -1)
    else
      let rec2 := recur pr.1 c
      if rec2.2 < 0 then rec2
      else visitSibs blk recur rec2.1 rest depth (n + 1)

/-- Modelled from the spec: the current, `int`-returning `xml_visit_tree`.
Its implementation file (xml.c) is missing from the source snapshot — only
its declaration and doc comment in xml.h and its callers in xlsx.c are
present (the `void` version embedded in src/src/cmd.c is a superseded
revision that no caller in xlsx.c type-checks against).  Per xml.h and §4.1
of the spec: the callback is applied to each child in order with the child's
depth and sibling index; a negative return breaks the whole traversal and is
returned (propagated through every recursion level); a positive return
skips the child's subtree and continues with its siblings; a zero return
recurses into the child's subtree before the next sibling; reaching
`XML_MAX_DEPTH` is reported once as a fatal error and treated as stop; the
function returns 0 when the traversal was not stopped.  Callbacks in the
program mutate captured `__block` state, so the model threads a state `σ`
explicitly through the callback.

The `fuel` argument is a termination artifact only: it bounds the remaining
recursion depth.  The C function's own `XML_MAX_DEPTH` check fires strictly
before a fuel of `XML_MAX_DEPTH` can run out (`xmlVisitTreeFuel_fuel_irrel`
below), so the fuel-exhaustion branch is unreachable from `xml_visit_tree`. -/
def xmlVisitTreeFuel {σ : Type} (blk : σ → XNode → Nat → Nat → σ × Int) :
    Nat → σ → XNode → Nat → σ × Int
  | 0, s, _, _ => (s, -1)
  | fuel + 1, s, root, depth =>
    visitSibs blk (fun s2 c => xmlVisitTreeFuel blk fuel s2 c (depth + 1))
      s root.children depth 0

/-- Modelled from the spec: `xml_visit_tree` (see `xmlVisitTreeFuel`). -/
def xml_visit_tree {σ : Type} (blk : σ → XNode → Nat → Nat → σ × Int)
    (s : σ) (root : XNode) (depth : Nat) : σ × Int :=
  xmlVisitTreeFuel blk XML_MAX_DEPTH s root depth

/-- The `foreach` child loop of `_xml_find_internal` (src/src/cmd.c): the
first child whose subtree resolves the path wins; descent into a child is
delegated to `f`. -/
def findSibs (f : XNode → CStr → Option XNode) :
    List XNode → CStr → Option XNode
  | [], _ => none
  | c :: rest, p =>
    match f c p with
    | some r => some r
    | none => findSibs f rest p

/-- `_xml_find_internal` (src/src/cmd.c): resolve one dotted-path component
against `root`'s name by a length-bounded `strncmp`; stop at the last
component; refuse to descend past `XML_MAX_DEPTH`; otherwise try every
child depth-first on the path after the separator.  The C code's
`if (!path)` test models the NULL pointer (never produced by the recursion,
which always passes `&next[1]`), so it has no counterpart here.  `fuel` is
the same termination artifact as in `xmlVisitTreeFuel`: the function's own
depth check fires strictly before a fuel of `XML_MAX_DEPTH` runs out. -/
def xmlFindFuel : Nat → XNode → Nat → CStr → Option XNode
  | 0, _, _, _ => none
  | fuel + 1, root, depth, path =>
    let len := (path.takeWhile (fun ch => ch ≠ '.')).length
    if ¬ strncmpEq path root.name len then none
    else if ¬ path.contains '.' then some root
    else if XML_MAX_DEPTH ≤ depth + 1 then none
    else findSibs (fun c p => xmlFindFuel fuel c (depth + 1) p)
      root.children (path.drop (len + 1))

/-- `xml_find` (src/src/cmd.c): dotted-path lookup starting at depth 1. -/
def xml_find (root : XNode) (path : CStr) : Option XNode :=
  xmlFindFuel XML_MAX_DEPTH root 1 path

/-- Modelled from the spec: `xml_node_attribute` of the current xml.c (its
implementation is missing from the snapshot; per xml.h it returns the value
of the first attribute carrying the given name, or none). -/
def xml_node_attribute (node : XNode) (name : CStr) : Option CStr :=
  (node.attrs.find? (fun a => a.1 = name)).map (fun a => a.2)

/-! ## The XLSX reader (src/src/xlsx.c) -/

/-- `struct xlsx_value` (xlsx.h): a tagged cell value.  `double` is
modelled as an exact rational (see the file header). -/
inductive XlsxValue where
  | null                  -- XLSX_TYPE_NULL
  | sref (idx : Nat)      -- XLSX_TYPE_STR: string-table index (`size_t sref`)
  | int (v : Int)         -- XLSX_TYPE_INT: `int64_t ival`
  | float (v : Rat)       -- XLSX_TYPE_FLOAT: `double fval`
  | lstr (s : CStr)       -- XLSX_TYPE_LSTR: owned literal string `str`
deriving Repr, DecidableEq

/-- `struct xlsx_strtab` (xlsx.h): positional string slots (`base`, where a
NULL slot is `none`) and their count.  The backing tree pointer `ref` is
not part of the value model; its release is tracked by `MemEv` events. -/
structure XlsxStrtab where
  base : List (Option CStr)
  count : Nat
deriving Repr, DecidableEq

/-- `struct xlsx` (xlsx.h). -/
structure Xlsx where
  strtab : XlsxStrtab
  rows : Nat
  cols : Nat
  grid : List XlsxValue
deriving Repr, DecidableEq

/-- A zip archive, modelled as the mapping from member path to the parsed
XML root of the member (`zxml_root_at`); a path not in the archive, or one
whose bytes fail to parse, is simply absent. -/
abbrev Archive := List (CStr × XNode)

/-- `zxml_root_at` at the model level: look the path up in the archive. -/
def zxml_root_at (archive : Archive) (path : CStr) : Option XNode :=
  (archive.find? (fun e => e.1 = path)).map (fun e => e.2)

/-- `XLSX_RELS` (src/src/xlsx.c:15). -/
def XLSX_RELS : CStr := cs "xl/_rels/workbook.xml.rels"

/-- `_xlsx_xl_path` (src/src/xlsx.c:19): the branch taken when
`strcmp("../", path)` is zero — i.e. when `path` *equals* `"../"` — strips
the escape (`strlcpy(buf, &path[3], len - 2)`); every other path is
prefixed with `"xl/"`. -/
def xlsxXlPath (path : CStr) : CStr :=
  if path = cs "../" then path.drop 3 else cs "xl/" ++ path

/-- `_xlsx_xl_root` (src/src/xlsx.c:51). -/
def xlsxXlRoot (archive : Archive) (path : CStr) : Option XNode :=
  zxml_root_at archive (xlsxXlPath path)

/-- Resource events of `_xlsx_strtab`, in program order: the `calloc` of
the slot array, `free(strtab->base)`, and `xmlFreeDoc` of the backing
tree. -/
inductive MemEv where
  | allocBase (count : Nat)
  | freeBase
  | freeDoc
deriving Repr, DecidableEq

/-- The fill callback of `_xlsx_strtab` (src/src/xlsx.c:125): store each
child's `si.t.text` content in its positional slot; a child without that
node (after a warning), or a positional index at or beyond the count
(after an error), returns `-1`. -/
def strtabFillBlk (cnt : Nat) :
    List (Option CStr) → XNode → Nat → Nat → List (Option CStr) × Int :=
  fun b node _ n =>
    match xml_find node (cs "si.t.text") with
    | none => (b, -1)
    | some tnode =>
      if cnt ≤ n then (b, -1)
      else (b.set n tnode.content, 1)

/-- `_xlsx_strtab` (src/src/xlsx.c:63): build the shared-string table from
the archive member at the given xl-relative path, together with the list
of resource events it performed.  A declared `count` attribute that parses
completely preallocates the slots (`calloc` of a wrapped negative count
fails, leaving `base` NULL); otherwise a warning is issued and the size is
discovered by counting the immediate children.  The fill pass stores each
child's `si.t.text` content in its positional slot; a child without that
node, or a positional index at or beyond the count, returns `-1` and makes
the build fail, releasing the tree and the slot array. -/
def xlsxStrtab (archive : Archive) (path : CStr) :
    Option XlsxStrtab × List MemEv :=
  match xlsxXlRoot archive path with
  | none => (none, [])
  | some strdata =>
    match xml_find strdata (cs "sst") with
    | none => (none, [MemEv.freeDoc])
    | some table =>
      let declared : Option Nat :=
        match xml_node_attribute table (cs "count") with
        | some countStr =>
          if countStr ≠ [] then
            let p := strtoll countStr
            if p.2 = [] then
              if 0 ≤ p.1 then some (toSizeT p.1) else none
            else none
          else none
        | none => none
      let cnt : Nat :=
        match declared with
        | some v => v
        | none => (xml_visit_tree (fun (k : Nat) _ _ _ => (k + 1, 1)) 0 table 1).1
      let base0 : List (Option CStr) := List.replicate cnt none
      let fill := xml_visit_tree (strtabFillBlk cnt) base0 table 1
      if fill.2 ≠ 0 then
        (none, [MemEv.allocBase cnt, MemEv.freeDoc, MemEv.freeBase])
      else (some ⟨fill.1, cnt⟩, [MemEv.allocBase cnt])

/-- State of the sizing pass of `_xlsx_sheet`: the `__block` variables
`doc->rows`, `doc->cols` and `cname_maxlen`. -/
structure Pass1 where
  rows : Nat
  cols : Nat
  cnameMaxlen : Nat
deriving Repr, DecidableEq

/-- The column callback of pass 1 (src/src/xlsx.c:202): track the maximum
sibling index and the maximum derived column-name length
(`strlen(col_name) - row_namelen` in `size_t`); a column without an `r`
attribute is fatal. -/
def pass1ColBlk (row_namelen : Nat) : Pass1 → XNode → Nat → Nat → Pass1 × Int :=
  fun s col _ j =>
    let s1 := if j > s.cols then { s with cols := j } else s
    match xml_node_attribute col (cs "r") with
    | none => (s1, -1)
    | some col_name =>
      let cname_len := sub64 col_name.length row_namelen
      (if cname_len > s1.cnameMaxlen then { s1 with cnameMaxlen := cname_len }
       else s1, 1)

/-- The row callback of pass 1 (src/src/xlsx.c:184): track the maximum row
index; a row without an `r` attribute is fatal; visit the row's columns. -/
def pass1RowBlk : Pass1 → XNode → Nat → Nat → Pass1 × Int :=
  fun s row _ i =>
    let s1 := if i > s.rows then { s with rows := i } else s
    match xml_node_attribute row (cs "r") with
    | none => (s1, -1)
    | some row_name =>
      let inner := xml_visit_tree (pass1ColBlk row_name.length) s1 row 2
      (inner.1, if inner.2 = 0 then 1 else -1)

/-- The row-initialization loop of pass 2 (src/src/xlsx.c:272): set every
cell of row `i` to the empty value. -/
def setRowNull (grid : List XlsxValue) (cols i : Nat) : List XlsxValue :=
  (List.range cols).foldl (fun g j => g.set (cols * i + j) XlsxValue.null) grid

/-- The canonical-name lookup of pass 2 (src/src/xlsx.c:312): the first
scratch slot `j < cols` whose stored name agrees with `cname` on the first
`len` bytes (`strncmp` bounded by the derived name length). -/
def lookupCol (cnames : Nat → CStr) (cols : Nat) (cname : CStr) (len : Nat) :
    Option Nat :=
  (List.range cols).find? (fun j => strncmpEq cname (cnames j) len)

/-- The per-cell typing and conversion of pass 2 (src/src/xlsx.c:346-400),
for a cell with the given `t` attribute and (nonempty) value text: type
`s` parses a string-table index (an incomplete conversion is fatal:
`none`); type `str` — or any other explicit type, after a warning —
duplicates the text as an owned literal string; with no type attribute, a
decimal point in the text selects `strtod` and its absence `strtoll`,
either conversion being fatal if it does not consume the whole text. -/
def parseCellValue (ty : Option CStr) (value : CStr) : Option XlsxValue :=
  match ty with
  | some t =>
    if t = cs "s" then
      let p := strtoll value
      if p.2 ≠ [] then none else some (.sref (toSizeT p.1))
    else
      some (.lstr value)
  | none =>
    if value.contains '.' then
      let p := strtod value
      if p.2 ≠ [] then none else some (.float p.1)
    else
      let p := strtoll value
      if p.2 ≠ [] then none else some (.int p.1)

/-- State of the materialization pass of `_xlsx_sheet`: the grid being
filled and the scratch column-name slots (`cnames`, slot `j` standing for
the C buffer at `&cnames[cname_maxlen * j]`). -/
structure Pass2 where
  grid : List XlsxValue
  cnames : Nat → CStr

/-- The column callback of pass 2 (src/src/xlsx.c:277): derive the cell's
column name; on row 0 record it in the scratch slot of the cell's
positional index, otherwise look the true column index up among the
canonical slots (an unknown name is fatal); null the grid slot; then
locate the value text (`c.v.text`; absent or empty leaves the cell empty)
and store the parsed value (a failed conversion is fatal). -/
def pass2ColBlk (cols i name_adjust : Nat) : Pass2 → XNode → Nat → Nat → Pass2 × Int :=
  fun s col _ pj =>
    let cname := (xml_node_attribute col (cs "r")).getD []
    let cname_len := sub64 cname.length name_adjust
    let found : Pass2 × Option Nat :=
      if i = 0 then
        ({ s with cnames := fun k => if k = pj then cname.take cname_len else s.cnames k },
         some pj)
      else (s, lookupCol s.cnames cols cname cname_len)
    match found.2 with
    | none => (found.1, -1)
    | some j =>
      let idx := cols * i + j
      let s1 := { found.1 with grid := found.1.grid.set idx XlsxValue.null }
      match (xml_find col (cs "c.v.text")).bind XNode.content with
      | none => (s1, 1)
      | some value =>
        if value = [] then (s1, 1)
        else
          match parseCellValue (xml_node_attribute col (cs "t")) value with
          | none => (s1, -1)
          | some v => ({ s1 with grid := s1.grid.set idx v }, 1)

/-- The row callback of pass 2 (src/src/xlsx.c:265): take the row's name
length (its presence was checked in pass 1), fill the row with empty
entries, then visit its columns. -/
def pass2RowBlk (cols : Nat) : Pass2 → XNode → Nat → Nat → Pass2 × Int :=
  fun s row _ i =>
    let name_adjust := ((xml_node_attribute row (cs "r")).getD []).length
    let s1 := { s with grid := setRowNull s.grid cols i }
    let inner := xml_visit_tree (pass2ColBlk cols i name_adjust) s1 row 2
    (inner.1, if inner.2 = 0 then 1 else -1)

/-- `_xlsx_sheet` (src/src/xlsx.c:160): locate `worksheet.sheetData`, size
the grid in pass 1 (counts are zero-based maxima plus one), allocate the
grid (`mem` supplies the arbitrary `malloc` contents) and the scratch
name buffer (`cmem` likewise), then materialize in pass 2.  Any fatal
condition makes the whole build return `none`. -/
def xlsxSheet (archive : Archive) (path : CStr) (strtab : XlsxStrtab)
    (mem : Nat → XlsxValue) (cmem : Nat → CStr) : Option Xlsx :=
  match xlsxXlRoot archive path with
  | none => none
  | some wsdata =>
    match xml_find wsdata (cs "worksheet.sheetData") with
    | none => none
    | some sheet =>
      let p1 := xml_visit_tree pass1RowBlk ⟨0, 0, 0⟩ sheet 1
      if p1.2 ≠ 0 then none
      else
        let rows := p1.1.rows + 1
        let cols := p1.1.cols + 1
        let grid0 := (List.range (rows * cols)).map mem
        let p2 := xml_visit_tree (pass2RowBlk cols) ⟨grid0, cmem⟩ sheet 1
        if p2.2 ≠ 0 then none
        else some ⟨strtab, rows, cols, p2.1.grid⟩

/-- The attribute scan of the `Relationship` callback in `xlsx_doc_at`
(src/src/xlsx.c:471): walk the attributes in order, taking the last URL
component of `Type` and the raw `Target`, stopping as soon as both are
set.  (Modelled from the spec together with `xml_node_attributes`, whose
current implementation — stop at the first nonzero callback return, per
xml.h — is missing from the snapshot.) -/
def relAttrScan : List (CStr × CStr) → Option CStr → Option CStr →
    Option CStr × Option CStr
  | [], target, ty => (target, ty)
  | (an, av) :: rest, target, ty =>
    let pr : Option CStr × Option CStr :=
      if an = cs "Type" then (target, some (lastComp av))
      else if an = cs "Target" then (some av, ty)
      else (target, ty)
    if pr.1.isSome ∧ pr.2.isSome then pr else relAttrScan rest pr.1 pr.2

/-- The `__block` result of the relationship scan: the worksheet and
shared-strings target paths. -/
structure RelPaths where
  worksheet : Option CStr
  strings : Option CStr
deriving Repr, DecidableEq

/-- The relationship callback of `xlsx_doc_at` (src/src/xlsx.c:461): skip —
but recurse into — nodes not named `Relationship` (`return false`); a
`Relationship` without both attributes stops the scan; otherwise record
the target under its type and stop once both parts are known. -/
def relsBlk : RelPaths → XNode → Nat → Nat → RelPaths × Int :=
  fun s node _ _ =>
    if node.name ≠ cs "Relationship" then (s, 0)
    else
      let ta := relAttrScan node.attrs none none
      match ta.1, ta.2 with
      | some target, some ty =>
        let s2 :=
          if ty = cs "worksheet" then { s with worksheet := some target }
          else if ty = cs "sharedStrings" then { s with strings := some target }
          else s
        (s2, if s2.worksheet.isSome ∧ s2.strings.isSome then -1 else 1)
      | _, _ => (s, -1)

/-- `xlsx_doc_at` (src/src/xlsx.c:428): open the archive, read the
relationships part, resolve the worksheet and shared-strings paths, build
the string table, then the sheet.  Any failure yields no handle.  `mem`
and `cmem` supply the arbitrary initial contents of the grid and scratch
allocations of `_xlsx_sheet`. -/
def xlsx_doc_at (archive : Archive) (mem : Nat → XlsxValue)
    (cmem : Nat → CStr) : Option Xlsx :=
  match zxml_root_at archive XLSX_RELS with
  | none => none
  | some rels =>
    match xml_find rels (cs "Relationships") with
    | none => none
    | some rdata =>
      let st := (xml_visit_tree relsBlk ⟨none, none⟩ rdata 0).1
      match st.worksheet, st.strings with
      | some worksheet, some strings =>
        match xlsxStrtab archive strings with
        | (none, _) => none
        | (some strtab, _) => xlsxSheet archive worksheet strtab mem cmem
      | _, _ => none

/-- `xlsx_rows` (xlsx.h). -/
def xlsx_rows (doc : Xlsx) : Nat := doc.rows

/-- `xlsx_cols` (xlsx.h). -/
def xlsx_cols (doc : Xlsx) : Nat := doc.cols

/-- `xlsx_row` (src/src/xlsx.c:558): the bound check is `i > rows`, and the
returned pointer is the `cols`-cell view at offset `i * cols` (for
`i = rows` the C pointer is one past the grid; the total model returns the
empty remainder of the list). -/
def xlsx_row (doc : Xlsx) (i : Nat) : Option (List XlsxValue) :=
  if i > xlsx_rows doc then none
  else some ((doc.grid.drop (i * xlsx_cols doc)).take (xlsx_cols doc))

/-- The row loop of `xlsx_foreach_row`, by remaining count `k` and current
index `i`. -/
def foreachRowAux (doc : Xlsx) (blk : List XlsxValue → Nat → Int) :
    Nat → Nat → Int
  | 0, _ => 0
  | k + 1, i =>
    let status := blk ((xlsx_row doc i).getD []) i
    if status ≠ 0 then status else foreachRowAux doc blk k (i + 1)

/-- `xlsx_foreach_row` (src/src/xlsx.c:567): call the block on each row in
ascending order, returning the first nonzero status, else 0. -/
def xlsx_foreach_row (doc : Xlsx) (blk : List XlsxValue → Nat → Int) : Int :=
  foreachRowAux doc blk (xlsx_rows doc) 0

/-- `xlsx_iter_col` (src/src/xlsx.c:579): iterate the rows, passing
`&row[col]` to the block — with no bound check on `col`; in the total
model an out-of-range lookup in the row view yields `none`. -/
def xlsx_iter_col (doc : Xlsx) (col : Nat) (blk : Option XlsxValue → Nat → Int) : Int :=
  xlsx_foreach_row doc (fun row n => blk (row.get? col) n)

/-! ## Concrete documents used by the theorems -/

/-- An element node with neither attributes nor content. -/
def xn (name : String) (children : List XNode) : XNode :=
  .mk (cs name) [] none children

/-- A libxml2 text node holding `s`. -/
def textNode (s : String) : XNode := .mk (cs "text") [] (some (cs s)) []

/-- A worksheet `v` (value) element holding `s`. -/
def vNode (s : String) : XNode := .mk (cs "v") [] none [textNode s]

/-- A worksheet cell `c` with reference `ref`, optional type attribute and
value text. -/
def cellNode (ref : String) (ty : Option String) (v : String) : XNode :=
  .mk (cs "c")
    ((cs "r", cs ref) :: (match ty with | some t => [(cs "t", cs t)] | none => []))
    none [vNode v]

/-- A worksheet `row` element. -/
def rowNode (ref : String) (cells : List XNode) : XNode :=
  .mk (cs "row") [(cs "r", cs ref)] none cells

/-- A worksheet part: `worksheet` root with a `sheetData` child. -/
def sheetRoot (rows : List XNode) : XNode :=
  .mk (cs "worksheet") [] none [.mk (cs "sheetData") [] none rows]

/-- A `Relationship` element with `Type` and `Target` attributes. -/
def relNode (ty tgt : String) : XNode :=
  .mk (cs "Relationship") [(cs "Type", cs ty), (cs "Target", cs tgt)] none []

/-- A shared-strings `si` entry holding one `t` text. -/
def siNode (s : String) : XNode :=
  .mk (cs "si") [] none [.mk (cs "t") [] none [textNode s]]

/-- A shared-strings part: `sst` root with a `count` attribute. -/
def sstRoot (cnt : String) (sis : List XNode) : XNode :=
  .mk (cs "sst") [(cs "count", cs cnt)] none sis

/-- A relationships part declaring the standard worksheet and
shared-strings targets. -/
def stdRels : XNode :=
  .mk (cs "Relationships") [] none
    [relNode "http://r/worksheet" "worksheet.xml",
     relNode "http://r/sharedStrings" "sharedStrings.xml"]

/-- An archive with the standard relationships part and the given
worksheet and shared-strings parts at their conventional paths. -/
def mkArchive (sheet sst : XNode) : Archive :=
  [(XLSX_RELS, stdRels), (cs "xl/worksheet.xml", sheet),
   (cs "xl/sharedStrings.xml", sst)]

/-- `malloc` oracle returning all-empty cells. -/
def memNull : Nat → XlsxValue := fun _ => XlsxValue.null

/-- Scratch-buffer oracle returning empty strings. -/
def cmemNil : Nat → CStr := fun _ => []

/-- C1: row 0 declares columns `A,B,C`; row 1 omits `B`. -/
def archC1 : Archive := mkArchive
  (sheetRoot
    [rowNode "1" [cellNode "A1" none "1", cellNode "B1" none "2", cellNode "C1" none "3"],
     rowNode "2" [cellNode "A2" none "7", cellNode "C2" none "9"]])
  (sstRoot "0" [])

/-- C2: a cell typed `s` referencing index 5 of a 2-entry string table. -/
def archC2 : Archive := mkArchive
  (sheetRoot [rowNode "1" [cellNode "A1" (some "s") "5"]])
  (sstRoot "2" [siNode "甲", siNode "乙"])

/-- C2: a string table declaring `count="1"` but holding two entries, so
the second entry's positional slot index is out of range. -/
def archC2b : Archive := mkArchive
  (sheetRoot [rowNode "1" [cellNode "A1" (some "s") "0"]])
  (sstRoot "1" [siNode "甲", siNode "乙"])

/-- C3: a typeless cell whose text `4a` has an incomplete integer
conversion. -/
def archC3 : Archive := mkArchive
  (sheetRoot [rowNode "1" [cellNode "A1" none "4a"]])
  (sstRoot "0" [])

/-- C4: a string table whose first `si` entry lacks the nested `t` text
node. -/
def archC4 : Archive := mkArchive
  (sheetRoot [rowNode "1" [cellNode "A1" (some "s") "0"]])
  (sstRoot "2" [XNode.mk (cs "si") [] none [], siNode "乙"])

/-- C9: a worksheet whose `sheetData` has no row children. -/
def archC9 : Archive := mkArchive (sheetRoot []) (sstRoot "0" [])

/-- A 1×1 document used to probe the `xlsx_row` bound check. -/
def docC6 : Xlsx := ⟨⟨[], 0⟩, 1, 1, [XlsxValue.int 3]⟩

/-! ## Reference definitions used only in theorem statements -/

/-- Reference form of a sibling visit whose callback never asks for
recursion: process each node in order, stopping at (and propagating) the
first negative status.  `visitSibs` collapses to this fold for the
callbacks of the xlsx passes, which return only `1` or `-1`. -/
def sibFold {σ : Type} (blk : σ → XNode → Nat → Nat → σ × Int) (s : σ) :
    List XNode → Nat → Nat → σ × Int
  | [], _, _ => (s, 0)
  | c :: rest, depth, n =>
    if (blk s c (depth + 1) n).2 < 0 then blk s c (depth + 1) n
    else sibFold blk (blk s c (depth + 1) n).1 rest depth (n + 1)

/-- A cell value that originates in the source worksheet: some cell of some
listed row has value text that parses to `v` under the cell's type
attribute. -/
def CellProv (rows : List XNode) (v : XlsxValue) : Prop :=
  ∃ row ∈ rows, ∃ cell ∈ row.children, ∃ value,
    (xml_find cell (cs "c.v.text")).bind XNode.content = some value ∧
    parseCellValue (xml_node_attribute cell (cs "t")) value = some v

/-- Reference form of a column iteration: invoke the callback on `ent n`
for `n` ascending, stopping at and returning the first nonzero status,
else 0 after `k` rows. -/
def iterSpecAux (ent : Nat → Option XlsxValue) (blk : Option XlsxValue → Nat → Int) :
    Nat → Nat → Int
  | 0, _ => 0
  | k + 1, n =>
    let status := blk (ent n) n
    if status ≠ 0 then status else iterSpecAux ent blk k (n + 1)

/-! ## Navigator infrastructure lemmas -/

/-- Two instantiations of the subtree-descent function that agree wherever
the depth guard allows descent give the same sibling visit. -/
theorem visitSibs_congr {σ : Type} {blk : σ → XNode → Nat → Nat → σ × Int}
    {r1 r2 : σ → XNode → σ × Int} {depth : Nat} (l : List XNode)
    (h : ∀ s c, depth + 1 < XML_MAX_DEPTH → r1 s c = r2 s c) :
    ∀ s n, visitSibs blk r1 s l depth n = visitSibs blk r2 s l depth n := by
  induction l with
  | nil => intro s n; rfl
  | cons c rest ih =>
    intro s n
    unfold visitSibs
    by_cases h1 : (blk s c (depth + 1) n).2 < 0
    · simp [h1]
    · by_cases h2 : 0 < (blk s c (depth + 1) n).2
      · simp [h1, h2, ih]
      · by_cases h3 : XML_MAX_DEPTH ≤ depth + 1
        · simp [h1, h2, h3]
        · have hr := h (blk s c (depth + 1) n).1 c (by omega)
          by_cases h4 : (r2 (blk s c (depth + 1) n).1 c).2 < 0
          · simp [h1, h2, h3, hr, h4]
          · simp [h1, h2, h3, hr, h4, ih]

/-- For a callback that never returns 0, the sibling visit never descends
and collapses to the plain fold `sibFold`, whatever the descent function. -/
theorem visitSibs_eq_sibFold {σ : Type} {blk : σ → XNode → Nat → Nat → σ × Int}
    {recur : σ → XNode → σ × Int} {depth : Nat} (l : List XNode)
    (h : ∀ s c n, (blk s c (depth + 1) n).2 ≠ 0) :
    ∀ s n, visitSibs blk recur s l depth n = sibFold blk s l depth n := by
  induction l with
  | nil => intro s n; rfl
  | cons c rest ih =>
    intro s n
    unfold visitSibs sibFold
    by_cases h1 : (blk s c (depth + 1) n).2 < 0
    · simp [h1]
    · have h2 : 0 < (blk s c (depth + 1) n).2 := by
        have := h s c n; omega
      simp [h1, h2, ih]

/-- The fuel of `xmlVisitTreeFuel` is irrelevant as long as it dominates
the depth still allowed by the `XML_MAX_DEPTH` guard. -/
theorem xmlVisitTreeFuel_fuel_irrel {σ : Type} {blk : σ → XNode → Nat → Nat → σ × Int} :
    ∀ (f g depth : Nat) (s : σ) (root : XNode),
      XML_MAX_DEPTH ≤ depth + 1 + f → XML_MAX_DEPTH ≤ depth + 1 + g →
      xmlVisitTreeFuel blk (f + 1) s root depth = xmlVisitTreeFuel blk (g + 1) s root depth := by
  intro f
  induction f using Nat.strong_induction_on with
  | _ f ih =>
    intro g depth s root hf hg
    show visitSibs blk (fun s2 c => xmlVisitTreeFuel blk f s2 c (depth + 1)) s root.children depth 0
       = visitSibs blk (fun s2 c => xmlVisitTreeFuel blk g s2 c (depth + 1)) s root.children depth 0
    refine visitSibs_congr root.children (fun s2 c hdepth => ?_) s 0
    obtain ⟨f2, rfl⟩ : ∃ f2, f = f2 + 1 := ⟨f - 1, by unfold XML_MAX_DEPTH at *; omega⟩
    obtain ⟨g2, rfl⟩ : ∃ g2, g = g2 + 1 := ⟨g - 1, by unfold XML_MAX_DEPTH at *; omega⟩
    exact ih f2 (by omega) g2 (depth + 1) s2 c (by omega) (by omega)

/-- One-level unfolding of `xml_visit_tree`: visiting a node is the sibling
loop over its children, where descent into a child is the visit of that
child one level deeper. -/
theorem xml_visit_tree_unfold {σ : Type} (blk : σ → XNode → Nat → Nat → σ × Int)
    (s : σ) (root : XNode) (depth : Nat) :
    xml_visit_tree blk s root depth
      = visitSibs blk (fun s2 c => xml_visit_tree blk s2 c (depth + 1))
          s root.children depth 0 := by
  show visitSibs blk (fun s2 c => xmlVisitTreeFuel blk (998 + 1) s2 c (depth + 1)) s root.children depth 0
     = visitSibs blk (fun s2 c => xmlVisitTreeFuel blk (999 + 1) s2 c (depth + 1)) s root.children depth 0
  refine visitSibs_congr root.children (fun s2 c hdepth => ?_) s 0
  exact xmlVisitTreeFuel_fuel_irrel 998 999 (depth + 1) s2 c
    (by unfold XML_MAX_DEPTH at *; omega) (by unfold XML_MAX_DEPTH at *; omega)

/-- For a callback that never returns 0 the whole visit is the plain
fold. -/
theorem xml_visit_tree_eq_sibFold {σ : Type} {blk : σ → XNode → Nat → Nat → σ × Int}
    (root : XNode) (depth : Nat)
    (h : ∀ s c n, (blk s c (depth + 1) n).2 ≠ 0) (s : σ) :
    xml_visit_tree blk s root depth = sibFold blk s root.children depth 0 := by
  rw [xml_visit_tree_unfold]
  exact visitSibs_eq_sibFold root.children h s 0

/-! ## Claim theorems -/

/-- C5: relationship target-path normalization.  The claim says a target
path beginning with the parent-directory escape `../` is not rebased under
the xl root.  The code's test is `strcmp("../", path)`, an equality test,
so `"../sharedStrings.xml"` *is* rebased to `"xl/../sharedStrings.xml"`;
only the exact string `"../"` takes the escape branch (yielding the empty
path).  Paths not beginning with `../` are prefixed with `"xl/"` as
claimed. -/
theorem C5_xl_path_parent_escape :
    xlsxXlPath (cs "../sharedStrings.xml") = cs "xl/../sharedStrings.xml"
  ∧ xlsxXlPath (cs "worksheet.xml") = cs "xl/worksheet.xml"
  ∧ xlsxXlPath (cs "../") = [] := by
  exact ⟨rfl, rfl, rfl⟩

/-- C6: fetch-row-by-index bound check.  The claim says `xlsx_row` returns
no row for every `i ≥ rows`.  The code's test is `i > rows`, so for
`i = rows` (here 1) it returns the (out-of-grid) view rather than NULL;
`i < rows` returns the row view and `i > rows` returns NULL. -/
theorem C6_row_fetch_bound :
    xlsx_row docC6 0 = some [XlsxValue.int 3]
  ∧ xlsx_row docC6 1 = some []
  ∧ xlsx_row docC6 2 = none := by
  exact ⟨rfl, rfl, rfl⟩

/-- C8: malformed dotted paths.  The claim says a path with an empty
segment (leading, trailing or doubled separator) finds nothing.  The
code's `if (!path)` only checks the NULL pointer, and its length-bounded
`strncmp` lets an empty segment match any node (and a segment match any
name it is a prefix of): `"a..b"` resolves to a grandchild, `"a."` to the
first child, `".b"` matches the root against the empty segment, and
`"ab"` matches a node named `"abc"`. -/
theorem C8_find_malformed_paths :
    xml_find (xn "a" [xn "x" [xn "b" []]]) (cs "a..b") = some (xn "b" [])
  ∧ xml_find (xn "a" [xn "x" []]) (cs "a.") = some (xn "x" [])
  ∧ xml_find (xn "a" [xn "b" []]) (cs ".b") = some (xn "b" [])
  ∧ xml_find (xn "abc" []) (cs "ab") = some (xn "abc" []) := by
  exact ⟨rfl, rfl, rfl, rfl⟩

/-- C4: a shared-strings child without the nested `si.t.text` node.  The
claim (and spec) say the slot is logged and left empty and the open still
succeeds; the code's fill callback returns `-1` for such a child — the
same stop value as the fatal capacity error — so the whole table build
fails (releasing the tree and slot array) and the open returns no
handle. -/
theorem C4_missing_text_entry_fatal :
    xlsxStrtab archC4 (cs "sharedStrings.xml")
      = (none, [MemEv.allocBase 2, MemEv.freeDoc, MemEv.freeBase])
  ∧ xlsx_doc_at archC4 memNull cmemNil = none := by
  exact ⟨rfl, rfl⟩

set_option maxRecDepth 16384 in
/-- C2 counterexample: a cell typed `s` holding index 5 against a
2-entry string table.  The claim says such a document must fail to open;
`_xlsx_sheet` stores the parsed index without any bound check, so the
open succeeds and hands out a grid whose cell references slot 5 of a
table with `count = 2`. -/
theorem C2_oob_cell_sref_cex :
    xlsx_doc_at archC2 memNull cmemNil
      = some ⟨⟨[some (cs "甲"), some (cs "乙")], 2⟩, 1, 1, [XlsxValue.sref 5]⟩
  ∧ (⟨[some (cs "甲"), some (cs "乙")], 2⟩ : XlsxStrtab).count ≤ 5 := by
  exact ⟨rfl, by norm_num⟩

/-- C9 counterexample: a worksheet whose `sheetData` has no row children.
Pass 1 leaves the zero-based maxima at 0, so the sheet is sized 1×1, but
pass 2 visits no row and never initializes the single cell: the open
succeeds and the grid holds whatever `malloc` returned (here the oracle
supplies `int 7`), not the empty value the claim requires. -/
theorem C9_empty_sheet_uninit_cex :
    xlsx_doc_at archC9 (fun _ => XlsxValue.int 7) cmemNil
      = some ⟨⟨[], 0⟩, 1, 1, [XlsxValue.int 7]⟩
  ∧ XlsxValue.int 7 ≠ XlsxValue.null := by
  exact ⟨rfl, by decide⟩

/-- C3: numeric inference for typeless cells.  `"42"` parses as integer 42,
`"4.2"` as float 21/5, `"42."` as float 42, and `"4a"` is a fatal
conversion error (the whole open of a document containing it aborts); in
general a decimal point in the text selects `strtod` and its absence
`strtoll`, and a conversion that does not consume the entire text is
fatal. -/
theorem C3_numeric_inference :
    parseCellValue none (cs "42") = some (XlsxValue.int 42)
  ∧ parseCellValue none (cs "4.2") = some (XlsxValue.float ((21 : Rat) / 5))
  ∧ parseCellValue none (cs "42.") = some (XlsxValue.float 42)
  ∧ parseCellValue none (cs "4a") = none
  ∧ xlsx_doc_at archC3 memNull cmemNil = none
  ∧ (∀ value : CStr, value.contains '.' = true →
      parseCellValue none value =
        (if (strtod value).2 ≠ [] then none else some (XlsxValue.float (strtod value).1)))
  ∧ (∀ value : CStr, value.contains '.' = false →
      parseCellValue none value =
        (if (strtoll value).2 ≠ [] then none else some (XlsxValue.int (strtoll value).1))) := by
  have h42 : strtod (cs "4.2") = ((21 : Rat) / 5, []) := by
    simp [strtod, cs, List.dropWhile, List.takeWhile, isSpaceC, isDigitC, natOfDigits]
    norm_num
  have h42d : strtod (cs "42.") = ((42 : Rat), []) := by
    simp [strtod, cs, List.dropWhile, List.takeWhile, isSpaceC, isDigitC, natOfDigits]
  refine ⟨by decide, ?_, ?_, by decide, by rfl, ?_, ?_⟩
  · have hc : (cs "4.2").contains '.' = true := by decide
    simp only [parseCellValue, hc, if_true, h42, ne_eq]
    simp
  · have hc : (cs "42.").contains '.' = true := by decide
    simp only [parseCellValue, hc, if_true, h42d, ne_eq]
    simp
  · intro value h
    have hm : '.' ∈ value := by simpa using h
    simp [parseCellValue, h, hm]
  · intro value h
    have hm : '.' ∉ value := by simpa using h
    simp [parseCellValue, h, hm]

/-- C3 witness: the dispatch conjuncts of `C3_numeric_inference` applied at
the concrete texts `"7.5"` and `"77"`. -/
theorem C3_numeric_inference_witness :
    parseCellValue none (cs "7.5")
      = (if (strtod (cs "7.5")).2 ≠ [] then none else some (XlsxValue.float (strtod (cs "7.5")).1))
  ∧ parseCellValue none (cs "77")
      = (if (strtoll (cs "77")).2 ≠ [] then none else some (XlsxValue.int (strtoll (cs "77")).1)) := by
  exact ⟨C3_numeric_inference.2.2.2.2.2.1 (cs "7.5") (by decide),
         C3_numeric_inference.2.2.2.2.2.2 (cs "77") (by decide)⟩

/-- C7: tri-state traversal contract of `xml_visit_tree` (modelled from the
spec, its implementation being missing from the snapshot).  On each child: a
negative callback return aborts the whole traversal immediately and is the
value propagated to the caller; a positive return skips the child's subtree
but continues with its siblings; a zero return recurses into the child's
subtree before the next sibling, propagating a negative status of the
subtree visit; and reaching the depth bound with recursion requested is
reported once and treated as stop (`-1`).  Visiting a node is the sibling
loop over its children with subtree descent being the visit one level
deeper. -/
theorem C7_visit_tristate :
    ∀ (σ : Type) (blk : σ → XNode → Nat → Nat → σ × Int)
      (recur : σ → XNode → σ × Int) (s : σ) (c : XNode) (rest : List XNode)
      (depth n : Nat),
      ((blk s c (depth + 1) n).2 < 0 →
        visitSibs blk recur s (c :: rest) depth n = blk s c (depth + 1) n)
    ∧ (0 < (blk s c (depth + 1) n).2 →
        visitSibs blk recur s (c :: rest) depth n
          = visitSibs blk recur (blk s c (depth + 1) n).1 rest depth (n + 1))
    ∧ ((blk s c (depth + 1) n).2 = 0 → depth + 1 < XML_MAX_DEPTH →
        visitSibs blk recur s (c :: rest) depth n
          = (if (recur (blk s c (depth + 1) n).1 c).2 < 0
             then recur (blk s c (depth + 1) n).1 c
             else visitSibs blk recur (recur (blk s c (depth + 1) n).1 c).1 rest depth (n + 1)))
    ∧ ((blk s c (depth + 1) n).2 = 0 → XML_MAX_DEPTH ≤ depth + 1 →
        visitSibs blk recur s (c :: rest) depth n = ((blk s c (depth + 1) n).1, -1))
    ∧ xml_visit_tree blk s c depth
        = visitSibs blk (fun s2 c2 => xml_visit_tree blk s2 c2 (depth + 1))
            s c.children depth 0 := by
  intro σ blk recur s c rest depth n
  refine ⟨fun h1 => ?_, fun h2 => ?_, fun h0 hd => ?_, fun h0 hd => ?_,
    xml_visit_tree_unfold blk s c depth⟩
  · conv_lhs => rw [visitSibs]
    rw [if_pos h1]
  · have h1 : ¬ (blk s c (depth + 1) n).2 < 0 := by omega
    conv_lhs => rw [visitSibs]
    rw [if_neg h1, if_pos h2]
  · have h1 : ¬ (blk s c (depth + 1) n).2 < 0 := by omega
    have h2 : ¬ 0 < (blk s c (depth + 1) n).2 := by omega
    conv_lhs => rw [visitSibs]
    rw [if_neg h1, if_neg h2, if_neg (Nat.not_le.mpr hd)]
  · have h1 : ¬ (blk s c (depth + 1) n).2 < 0 := by omega
    have h2 : ¬ 0 < (blk s c (depth + 1) n).2 := by omega
    conv_lhs => rw [visitSibs]
    rw [if_neg h1, if_neg h2, if_pos hd]

/-- C7 witness: each branch of `C7_visit_tristate` applied at concrete
callbacks and nodes. -/
theorem C7_visit_tristate_witness :
    visitSibs (fun (s : Nat) _ _ _ => (s + 1, -1)) (fun s _ => (s, 0)) 0 [xn "a" []] 0 0 = (1, -1)
  ∧ visitSibs (fun (s : Nat) _ _ _ => (s + 1, 1)) (fun s _ => (s, 0)) 0 [xn "a" []] 0 0 = (1, 0)
  ∧ visitSibs (fun (s : Nat) _ _ _ => (s + 1, 0)) (fun s _ => (s + 10, 0)) 0 [xn "a" []] 0 0 = (11, 0)
  ∧ visitSibs (fun (s : Nat) _ _ _ => (s + 1, 0)) (fun s _ => (s + 10, 0)) 0 [xn "a" []] 999 0 = (1, -1) := by
  refine ⟨?_, ?_, ?_, ?_⟩
  · have h := (C7_visit_tristate Nat (fun s _ _ _ => (s + 1, -1)) (fun s _ => (s, 0))
      0 (xn "a" []) [] 0 0).1 (by decide)
    simpa using h
  · have h := (C7_visit_tristate Nat (fun s _ _ _ => (s + 1, 1)) (fun s _ => (s, 0))
      0 (xn "a" []) [] 0 0).2.1 (by decide)
    simpa using h
  · have h := (C7_visit_tristate Nat (fun s _ _ _ => (s + 1, 0)) (fun s _ => (s + 10, 0))
      0 (xn "a" []) [] 0 0).2.2.1 (by decide) (by decide)
    simpa using h
  · have h := (C7_visit_tristate Nat (fun s _ _ _ => (s + 1, 0)) (fun s _ => (s + 10, 0))
      0 (xn "a" []) [] 999 0).2.2.2.1 (by decide) (by decide)
    simpa using h

/-- The row view passed by `xlsx_foreach_row` for row `i < rows`, indexed at
`col`: the grid cell at `cols * i + col` for an in-range column, nothing for
`col ≥ cols`. -/
theorem rowView_get? (doc : Xlsx) (i col : Nat)
    (hi : i < doc.rows) :
    ((xlsx_row doc i).getD []).get? col
      = if col < doc.cols then doc.grid.get? (doc.cols * i + col) else none := by
  have hnot : ¬ i > xlsx_rows doc := by unfold xlsx_rows; omega
  unfold xlsx_row
  rw [if_neg hnot]
  simp only [Option.getD_some]
  by_cases hc : col < doc.cols
  · rw [if_pos hc]
    unfold xlsx_cols
    rw [List.get?_take hc, List.get?_drop]
    congr 1
    ring
  · rw [if_neg hc]
    apply List.get?_eq_none.mpr
    calc ((doc.grid.drop (i * xlsx_cols doc)).take (xlsx_cols doc)).length
        ≤ xlsx_cols doc := by
          rw [List.length_take]; omega
      _ ≤ col := by unfold xlsx_cols at *; omega

/-- The row loop of `xlsx_foreach_row`, composed with a per-row entry
lookup, is the reference column iteration. -/
theorem foreachRowAux_eq_iterSpec (doc : Xlsx) (col : Nat)
    (blk : Option XlsxValue → Nat → Int) (f : Nat → Option XlsxValue)
    (hf : ∀ i, i < doc.rows → ((xlsx_row doc i).getD []).get? col = f i) :
    ∀ k i, k + i ≤ doc.rows →
      foreachRowAux doc (fun row n => blk (row.get? col) n) k i
        = iterSpecAux f blk k i := by
  intro k
  induction k with
  | zero => intro i h; rfl
  | succ k ih =>
    intro i h
    unfold foreachRowAux iterSpecAux
    rw [hf i (by omega)]
    by_cases hs : blk (f i) i ≠ 0
    · rw [if_pos hs, if_pos hs]
    · rw [if_neg hs, if_neg hs]
      exact ih (i + 1) (by omega)

/-- C10: `xlsx_iter_col` performs no bound check on its column argument.
For `col < cols` it invokes the callback once per row in ascending order on
the grid cell at `(row, col)` — every such lookup yielding a value —
stopping at and propagating the first nonzero callback status; for
`col ≥ cols` the iteration proceeds identically but the entry handed to
the callback lies outside the row's `cols`-cell view (no value in the
total model), with no error reported. -/
theorem C10_iter_col_contract :
    ∀ (doc : Xlsx) (col : Nat) (blk : Option XlsxValue → Nat → Int),
      doc.grid.length = doc.rows * doc.cols →
      (col < doc.cols →
        xlsx_iter_col doc col blk
          = iterSpecAux (fun n => doc.grid.get? (doc.cols * n + col)) blk doc.rows 0
        ∧ ∀ n, n < doc.rows → (doc.grid.get? (doc.cols * n + col)).isSome = true)
    ∧ (doc.cols ≤ col →
        xlsx_iter_col doc col blk = iterSpecAux (fun _ => none) blk doc.rows 0) := by
  intro doc col blk hlen
  constructor
  · intro hc
    constructor
    · unfold xlsx_iter_col xlsx_foreach_row xlsx_rows
      exact foreachRowAux_eq_iterSpec doc col blk _
        (fun i hi => by rw [rowView_get? doc i col hi, if_pos hc])
        doc.rows 0 (by omega)
    · intro n hn
      have hidx : doc.cols * n + col < doc.grid.length := by
        rw [hlen]
        calc doc.cols * n + col < doc.cols * n + doc.cols := by omega
          _ = doc.cols * (n + 1) := by ring
          _ ≤ doc.cols * doc.rows := Nat.mul_le_mul_left _ (by omega)
          _ = doc.rows * doc.cols := by ring
      cases hg : doc.grid.get? (doc.cols * n + col) with
      | none => exact absurd (List.get?_eq_none.mp hg) (by omega)
      | some v => rfl
  · intro hc
    unfold xlsx_iter_col xlsx_foreach_row xlsx_rows
    exact foreachRowAux_eq_iterSpec doc col blk _
      (fun i hi => by rw [rowView_get? doc i col hi, if_neg (by omega)])
      doc.rows 0 (by omega)

/-- C10 witness: `C10_iter_col_contract` applied to the concrete 1×1
document, at an in-range and at an out-of-range column. -/
theorem C10_iter_col_contract_witness :
    xlsx_iter_col docC6 0 (fun _ _ => (0 : Int))
      = iterSpecAux (fun n => docC6.grid.get? (docC6.cols * n + 0)) (fun _ _ => 0) docC6.rows 0
  ∧ xlsx_iter_col docC6 5 (fun _ _ => (0 : Int))
      = iterSpecAux (fun _ => none) (fun _ _ => 0) docC6.rows 0 := by
  exact ⟨((C10_iter_col_contract docC6 0 (fun _ _ => 0) (by decide)).1 (by decide)).1,
         (C10_iter_col_contract docC6 5 (fun _ _ => 0) (by decide)).2 (by decide)⟩

/-- The string-table fill callback never returns the recursion request 0. -/
theorem strtabFillBlk_ne_zero (cnt : Nat) :
    ∀ (b : List (Option CStr)) (c : XNode) (d n : Nat),
      (strtabFillBlk cnt b c d n).2 ≠ 0 := by
  intro b c d n
  unfold strtabFillBlk
  cases hf : xml_find c (cs "si.t.text") with
  | none => simp
  | some t =>
    by_cases hn : cnt ≤ n
    · simp [hn]
    · simp [hn]

/-- When the slot count is smaller than the number of children still to
fill, the fill fold stops with `-1`: some child reaches an out-of-range
positional index (or fails earlier on a missing text node, the same stop
value). -/
theorem strtabFill_overflow (cnt : Nat) :
    ∀ (l : List XNode) (b : List (Option CStr)) (n : Nat),
      n ≤ cnt → cnt < n + l.length →
      (sibFold (strtabFillBlk cnt) b l 1 n).2 = -1 := by
  intro l
  induction l with
  | nil => intro b n h1 h2; simp at h2; omega
  | cons c rest ih =>
    intro b n h1 h2
    unfold sibFold
    cases hf : xml_find c (cs "si.t.text") with
    | none => simp [strtabFillBlk, hf]
    | some t =>
      by_cases hn : cnt ≤ n
      · simp [strtabFillBlk, hf, hn]
      · have hlt : ¬ ((strtabFillBlk cnt b c (1 + 1) n).2 < 0) := by
          simp [strtabFillBlk, hf, hn]
        rw [if_neg hlt]
        have hst : (strtabFillBlk cnt b c (1 + 1) n).1 = b.set n t.content := by
          simp [strtabFillBlk, hf, hn]
        rw [hst]
        exact ih _ (n + 1) (by omega) (by simp at h2; omega)

set_option maxRecDepth 16384 in
/-- C2 (amended): only the string-table builder's positional check is
fatal.  (a) A declared count smaller than the number of children makes
`_xlsx_strtab` fail, releasing the backing tree and the slot array (the
events record `calloc` followed by `xmlFreeDoc` and `free`).  (b) A cell
typed `s` stores its fully parsed index unchecked — the result does not
depend on any string-table count.  (c) Concretely, a document whose
string table declares `count="1"` but holds two entries fails to open. -/
theorem C2_amended_slot_overflow_fatal_cell_sref_unchecked :
    (∀ (archive : Archive) (path : CStr) (strdata table : XNode)
       (countStr : CStr) (v : Int),
        xlsxXlRoot archive path = some strdata →
        xml_find strdata (cs "sst") = some table →
        xml_node_attribute table (cs "count") = some countStr →
        countStr ≠ [] →
        strtoll countStr = (v, []) →
        0 ≤ v →
        toSizeT v < table.children.length →
        xlsxStrtab archive path
          = (none, [MemEv.allocBase (toSizeT v), MemEv.freeDoc, MemEv.freeBase]))
  ∧ (∀ (value : CStr) (v : Int),
        strtoll value = (v, []) →
        parseCellValue (some (cs "s")) value = some (XlsxValue.sref (toSizeT v)))
  ∧ xlsx_doc_at archC2b memNull cmemNil = none := by
  refine ⟨?_, ?_, by rfl⟩
  · intro archive path strdata table countStr v h1 h2 h3 h4 h5 h6 h7
    have hfill : (xml_visit_tree (strtabFillBlk (toSizeT v))
        (List.replicate (toSizeT v) none) table 1).2 = -1 := by
      rw [xml_visit_tree_eq_sibFold table 1
        (fun s c n => strtabFillBlk_ne_zero (toSizeT v) s c (1 + 1) n)]
      exact strtabFill_overflow (toSizeT v) table.children _ 0 (by omega) (by omega)
    unfold xlsxStrtab
    simp [h1, h2, h3, h4, h5, h6, hfill]
  · intro value v h
    simp [parseCellValue, h]

/-- C2 witness: the amended statement applied at the concrete overflowing
archive `archC2b` and at the concrete index text `"5"`. -/
theorem C2_amended_witness :
    xlsxStrtab archC2b (cs "sharedStrings.xml")
      = (none, [MemEv.allocBase 1, MemEv.freeDoc, MemEv.freeBase])
  ∧ parseCellValue (some (cs "s")) (cs "5") = some (XlsxValue.sref 5) := by
  exact ⟨C2_amended_slot_overflow_fatal_cell_sref_unchecked.1 archC2b
           (cs "sharedStrings.xml") (sstRoot "1" [siNode "甲", siNode "乙"])
           (sstRoot "1" [siNode "甲", siNode "乙"]) (cs "1") 1
           rfl rfl rfl (by decide) (by decide) (by decide) (by decide),
         C2_amended_slot_overflow_fatal_cell_sref_unchecked.2.1 (cs "5") 5 (by decide)⟩

/-- `find?` yields the first element satisfying the predicate: some index
holds the found element and every earlier index fails the predicate. -/
theorem find?_first_index {α : Type} (p : α → Bool) :
    ∀ (l : List α) (a : α), l.find? p = some a →
      ∃ i, l.get? i = some a ∧ p a = true ∧
        ∀ k, k < i → ∀ b, l.get? k = some b → p b = false := by
  intro l
  induction l with
  | nil => intro a h; simp at h
  | cons x rest ih =>
    intro a h
    by_cases hx : p x
    · rw [List.find?_cons_of_pos _ hx] at h
      have hxa : x = a := by injection h
      subst hxa
      exact ⟨0, by simp, hx, fun k hk => by omega⟩
    · rw [List.find?_cons_of_neg _ hx] at h
      obtain ⟨i, hi, hpa, hfirst⟩ := ih a h
      refine ⟨i + 1, by simpa using hi, hpa, ?_⟩
      intro k hk b hb
      cases k with
      | zero =>
        have hbx : x = b := by simpa using hb
        subst hbx
        simpa using hx
      | succ k => exact hfirst k (by omega) b (by simpa using hb)

/-- The canonical-name lookup returns the first matching scratch slot:
the index is in range, its slot matches on the bounded comparison, and no
earlier slot does. -/
theorem lookupCol_spec (cnames : Nat → CStr) (cols : Nat) (cname : CStr)
    (len j : Nat) (h : lookupCol cnames cols cname len = some j) :
    j < cols ∧ strncmpEq cname (cnames j) len = true ∧
      ∀ k, k < j → strncmpEq cname (cnames k) len = false := by
  obtain ⟨i, hi, hp, hfirst⟩ := find?_first_index _ (List.range cols) j h
  have hi_lt : i < cols := by
    by_contra hge
    rw [List.get?_eq_none.mpr (by simpa using hge)] at hi
    cases hi
  have hij : j = i := by
    have := List.get?_range hi_lt
    rw [this] at hi
    injection hi
    omega
  subst hij
  refine ⟨hi_lt, hp, ?_⟩
  intro k hk
  exact hfirst k hk k (List.get?_range (by omega))

set_option maxRecDepth 16384 in
/-- C1: sparse-column round trip.  The concrete document declaring columns
`A,B,C` in row 0 and omitting `B` in row 1 materializes row 1 as
`[7, empty, 9]` — the omitted column's canonical position is empty and `C`'s
value sits at `C`'s canonical index 2, not shifted into index 1.  In
general, for every row after row 0 the cell callback ignores the cell's
positional index among its row's children (it is a function of the node
only), and the canonical lookup it uses instead returns the first scratch
slot matching the derived name under the length-bounded comparison. -/
theorem C1_sparse_column_round_trip :
    xlsx_doc_at archC1 memNull cmemNil
      = some ⟨⟨[], 0⟩, 2, 3,
          [XlsxValue.int 1, XlsxValue.int 2, XlsxValue.int 3,
           XlsxValue.int 7, XlsxValue.null, XlsxValue.int 9]⟩
  ∧ (∀ (cols i adjust : Nat) (s : Pass2) (col : XNode) (d pj1 pj2 : Nat),
       i ≠ 0 →
       pass2ColBlk cols i adjust s col d pj1 = pass2ColBlk cols i adjust s col d pj2)
  ∧ (∀ (cnames : Nat → CStr) (cols : Nat) (cname : CStr) (len j : Nat),
       lookupCol cnames cols cname len = some j →
       j < cols ∧ strncmpEq cname (cnames j) len = true ∧
         ∀ k, k < j → strncmpEq cname (cnames k) len = false) := by
  refine ⟨by rfl, ?_, lookupCol_spec⟩
  intro cols i adjust s col d pj1 pj2 hi
  unfold pass2ColBlk
  simp only [hi, if_false, ite_false, reduceIte]

/-- C1 witness: the positional-index independence applied at a concrete
row-1 cell, and the first-match property applied at the canonical slots
`A,B,C` looking up the derived name of `C2`. -/
theorem C1_sparse_column_round_trip_witness :
    pass2ColBlk 3 1 1 ⟨[XlsxValue.null], cmemNil⟩ (cellNode "A2" none "7") 2 0
      = pass2ColBlk 3 1 1 ⟨[XlsxValue.null], cmemNil⟩ (cellNode "A2" none "7") 2 5
  ∧ (2 : Nat) < 3
  ∧ strncmpEq (cs "C2") (cs "C") 1 = true := by
  have h3 := C1_sparse_column_round_trip.2.2
    (fun k => if k = 0 then cs "A" else if k = 1 then cs "B" else cs "C")
    3 (cs "C2") 1 2 (by decide)
  exact ⟨C1_sparse_column_round_trip.2.1 3 1 1 _ _ 2 0 5 (by decide),
         h3.1, h3.2.1⟩


/-! ## Pass-1 lemmas for the dense-grid invariant (C9) -/

/-- The pass-1 column callback never returns the recursion request 0. -/
theorem pass1ColBlk_ne_zero (rnl : Nat) :
    ∀ (s : Pass1) (c : XNode) (d n : Nat), ((pass1ColBlk rnl) s c d n).2 ≠ 0 := by
  intro s c d n
  cases h : xml_node_attribute c (cs "r") with
  | none => simp [pass1ColBlk, h]
  | some v => simp [pass1ColBlk, h]

/-- The pass-1 row callback never returns the recursion request 0. -/
theorem pass1RowBlk_ne_zero :
    ∀ (s : Pass1) (c : XNode) (d n : Nat), (pass1RowBlk s c d n).2 ≠ 0 := by
  intro s c d n
  cases h : xml_node_attribute c (cs "r") with
  | none => simp [pass1RowBlk, h]
  | some v =>
    simp only [pass1RowBlk, h]
    split <;> split <;> simp

/-- The pass-1 column callback leaves the row maximum alone. -/
theorem pass1ColBlk_rows (rnl : Nat) (s : Pass1) (c : XNode) (d n : Nat) :
    ((pass1ColBlk rnl) s c d n).1.rows = s.rows := by
  cases h : xml_node_attribute c (cs "r") with
  | none => simp only [pass1ColBlk, h]; split <;> rfl
  | some v => simp only [pass1ColBlk, h]; split <;> split <;> rfl

/-- The pass-1 column fold leaves the row maximum alone. -/
theorem pass1ColFold_rows (rnl : Nat) :
    ∀ (l : List XNode) (s : Pass1) (d n : Nat),
      (sibFold (pass1ColBlk rnl) s l d n).1.rows = s.rows := by
  intro l
  induction l with
  | nil => intro s d n; rfl
  | cons c rest ih =>
    intro s d n
    unfold sibFold
    split
    · exact pass1ColBlk_rows rnl s c (d + 1) n
    · rw [ih]
      exact pass1ColBlk_rows rnl s c (d + 1) n

/-- The pass-1 column callback never decreases the column maximum. -/
theorem pass1ColBlk_cols_mono (rnl : Nat) (s : Pass1) (c : XNode) (d n : Nat) :
    s.cols ≤ ((pass1ColBlk rnl) s c d n).1.cols := by
  cases h : xml_node_attribute c (cs "r") with
  | none =>
    simp only [pass1ColBlk, h]
    split <;> (try dsimp only) <;> omega
  | some v =>
    simp only [pass1ColBlk, h]
    split <;> split <;> (try dsimp only) <;> omega

/-- The pass-1 column fold never decreases the column maximum. -/
theorem pass1ColFold_cols_mono (rnl : Nat) :
    ∀ (l : List XNode) (s : Pass1) (d n : Nat),
      s.cols ≤ (sibFold (pass1ColBlk rnl) s l d n).1.cols := by
  intro l
  induction l with
  | nil => intro s d n; exact Nat.le_refl _
  | cons c rest ih =>
    intro s d n
    unfold sibFold
    split
    · exact pass1ColBlk_cols_mono rnl s c (d + 1) n
    · exact Nat.le_trans (pass1ColBlk_cols_mono rnl s c (d + 1) n) (ih _ d (n + 1))

/-- After a successful step on one column at sibling index `n`, the column
maximum is at least `n`. -/
theorem pass1ColBlk_cols_ge (rnl : Nat) (s : Pass1) (c : XNode) (d n : Nat) :
    n ≤ ((pass1ColBlk rnl) s c d n).1.cols := by
  cases h : xml_node_attribute c (cs "r") with
  | none =>
    simp only [pass1ColBlk, h]
    split <;> (try dsimp only) <;> omega
  | some v =>
    simp only [pass1ColBlk, h]
    split <;> split <;> (try dsimp only) <;> omega

/-- A completed pass-1 column fold pushes the column maximum at least to
the last sibling index seen. -/
theorem pass1ColFold_cols_bound (rnl : Nat) :
    ∀ (l : List XNode) (s : Pass1) (d n : Nat),
      l ≠ [] →
      (sibFold (pass1ColBlk rnl) s l d n).2 = 0 →
      n + l.length ≤ (sibFold (pass1ColBlk rnl) s l d n).1.cols + 1 := by
  intro l
  induction l with
  | nil => intro s d n h; exact absurd rfl h
  | cons c rest ih =>
    intro s d n _ hok
    unfold sibFold at hok ⊢
    split at hok
    · exact absurd (by omega : ((pass1ColBlk rnl) s c (d + 1) n).2 = 0)
        (pass1ColBlk_ne_zero rnl s c (d + 1) n)
    · rename_i hneg
      rw [if_neg hneg]
      cases hrest : rest with
      | nil =>
        subst hrest
        have := pass1ColBlk_cols_ge rnl s c (d + 1) n
        simpa using this
      | cons r2 rs =>
        subst hrest
        have hih := ih ((pass1ColBlk rnl) s c (d + 1) n).1 d (n + 1) (by simp) hok
        simp only [List.length_cons] at hih ⊢
        omega

/-- The pass-1 row callback keeps the row maximum at most the current
sibling index once it has caught up with it. -/
theorem pass1RowBlk_rows_le (s : Pass1) (c : XNode) (d i : Nat) (hle : s.rows ≤ i) :
    (pass1RowBlk s c d i).1.rows ≤ i := by
  cases h : xml_node_attribute c (cs "r") with
  | none =>
    simp only [pass1RowBlk, h]
    split <;> (try dsimp only) <;> omega
  | some v =>
    simp only [pass1RowBlk, h]
    rw [xml_visit_tree_eq_sibFold c 2 (fun s2 c2 n2 => pass1ColBlk_ne_zero v.length s2 c2 3 n2)]
    rw [pass1ColFold_rows]
    split <;> (try dsimp only) <;> omega

/-- The pass-1 row callback never decreases the column maximum. -/
theorem pass1RowBlk_cols_mono (s : Pass1) (c : XNode) (d i : Nat) :
    s.cols ≤ (pass1RowBlk s c d i).1.cols := by
  cases h : xml_node_attribute c (cs "r") with
  | none =>
    simp only [pass1RowBlk, h]
    split <;> (try dsimp only) <;> omega
  | some v =>
    simp only [pass1RowBlk, h]
    rw [xml_visit_tree_eq_sibFold c 2 (fun s2 c2 n2 => pass1ColBlk_ne_zero v.length s2 c2 3 n2)]
    split
    · have hm := pass1ColFold_cols_mono v.length c.children { s with rows := i } 2 0
      dsimp only at hm
      exact hm
    · exact pass1ColFold_cols_mono v.length c.children s 2 0

/-- The pass-1 row fold never decreases the column maximum. -/
theorem pass1RowFold_cols_mono :
    ∀ (l : List XNode) (s : Pass1) (n : Nat),
      s.cols ≤ (sibFold pass1RowBlk s l 1 n).1.cols := by
  intro l
  induction l with
  | nil => intro s n; exact Nat.le_refl _
  | cons c rest ih =>
    intro s n
    unfold sibFold
    split
    · exact pass1RowBlk_cols_mono s c 2 n
    · exact Nat.le_trans (pass1RowBlk_cols_mono s c 2 n) (ih _ (n + 1))

/-- A row step that did not stop bounds the row's child count by the column
maximum plus one. -/
theorem pass1RowBlk_child_bound (s : Pass1) (c : XNode) (d i : Nat)
    (hns : ¬ (pass1RowBlk s c d i).2 < 0) :
    c.children.length ≤ (pass1RowBlk s c d i).1.cols + 1 := by
  cases h : xml_node_attribute c (cs "r") with
  | none => simp [pass1RowBlk, h] at hns
  | some v =>
    simp only [pass1RowBlk, h] at hns ⊢
    rw [xml_visit_tree_eq_sibFold c 2
      (fun s2 c2 n2 => pass1ColBlk_ne_zero v.length s2 c2 3 n2)] at hns ⊢
    have hz : (sibFold (pass1ColBlk v.length)
        (if i > s.rows then { s with rows := i } else s) c.children 2 0).2 = 0 := by
      by_contra hnz
      rw [if_neg hnz] at hns
      omega
    cases hc : c.children with
    | nil => simp
    | cons c2 rs =>
      have hb := pass1ColFold_cols_bound v.length (c2 :: rs)
        (if i > s.rows then { s with rows := i } else s) 2 0 (by simp) (hc ▸ hz)
      simpa using hb

/-- Success of pass 1 keeps the final row maximum below the number of row
children. -/
theorem pass1RowFold_rows_bound :
    ∀ (l : List XNode) (s : Pass1) (n : Nat),
      s.rows ≤ n → l ≠ [] →
      (sibFold pass1RowBlk s l 1 n).2 = 0 →
      (sibFold pass1RowBlk s l 1 n).1.rows < n + l.length := by
  intro l
  induction l with
  | nil => intro s n _ h; exact absurd rfl h
  | cons c rest ih =>
    intro s n hle _ hok
    unfold sibFold at hok ⊢
    split at hok
    · rename_i hneg; omega
    · rename_i hneg
      rw [if_neg hneg]
      have hr := pass1RowBlk_rows_le s c (1 + 1) n hle
      cases hrest : rest with
      | nil =>
        subst hrest
        simp only [sibFold, List.length_cons, List.length_nil]
        omega
      | cons r2 rs =>
        subst hrest
        have hih := ih (pass1RowBlk s c (1 + 1) n).1 (n + 1) (by omega) (by simp) hok
        simp only [List.length_cons] at hih ⊢
        omega

/-- Success of pass 1 bounds every row's child count by the final column
maximum plus one. -/
theorem pass1RowFold_cols_bound :
    ∀ (l : List XNode) (s : Pass1) (n : Nat),
      (sibFold pass1RowBlk s l 1 n).2 = 0 →
      ∀ row ∈ l, row.children.length ≤ (sibFold pass1RowBlk s l 1 n).1.cols + 1 := by
  intro l
  induction l with
  | nil => intro s n _ row hrow; simp at hrow
  | cons c rest ih =>
    intro s n hok row hrow
    unfold sibFold at hok ⊢
    split at hok
    · rename_i hneg; omega
    · rename_i hneg
      rw [if_neg hneg]
      rcases List.mem_cons.mp hrow with rfl | hmem
      · have h1 := pass1RowBlk_child_bound s row (1 + 1) n hneg
        have h2 := pass1RowFold_cols_mono rest (pass1RowBlk s row (1 + 1) n).1 (n + 1)
        omega
      · exact ih (pass1RowBlk s c (1 + 1) n).1 (n + 1) hok row hmem

/-! ## Pass-2 lemmas for the dense-grid invariant (C9) -/

/-- `List.set` at `n`, observed at `p`. -/
theorem set_get? (l : List XlsxValue) (n p : Nat) (a : XlsxValue) :
    (l.set n a).get? p = if p = n ∧ p < l.length then some a else l.get? p := by
  by_cases h : p = n
  · subst h
    by_cases hl : p < l.length
    · rw [if_pos ⟨rfl, hl⟩, List.get?_set_eq, List.get?_eq_get hl]
      rfl
    · rw [if_neg (fun hc => hl hc.2)]
      rw [List.get?_eq_none.mpr (by rw [List.length_set]; omega),
          List.get?_eq_none.mpr (by omega)]
  · rw [if_neg (fun hc => h hc.1), List.get?_set_ne _ _ (fun he => h he.symm)]

/-- Folding null-writes over offsets preserves the length. -/
theorem foldl_set_null_length (base : Nat) :
    ∀ (js : List Nat) (g : List XlsxValue),
      (js.foldl (fun g2 j => g2.set (base + j) XlsxValue.null) g).length = g.length := by
  intro js
  induction js with
  | nil => intro g; rfl
  | cons j js ih =>
    intro g
    simp only [List.foldl_cons]
    rw [ih, List.length_set]

/-- Folding null-writes over a list of offsets, observed at `p`. -/
theorem foldl_set_null_get? (base : Nat) :
    ∀ (js : List Nat) (g : List XlsxValue) (p : Nat),
      (js.foldl (fun g2 j => g2.set (base + j) XlsxValue.null) g).get? p
        = if (∃ j ∈ js, base + j = p) ∧ p < g.length then some XlsxValue.null
          else g.get? p := by
  intro js
  induction js with
  | nil => intro g p; simp
  | cons j js ih =>
    intro g p
    simp only [List.foldl_cons]
    rw [ih, List.length_set]
    by_cases h1 : (∃ j2 ∈ js, base + j2 = p) ∧ p < g.length
    · rw [if_pos h1, if_pos ⟨⟨h1.1.choose, List.mem_cons_of_mem _ h1.1.choose_spec.1,
        h1.1.choose_spec.2⟩, h1.2⟩]
    · rw [if_neg h1, set_get?]
      by_cases h2 : p = base + j ∧ p < g.length
      · rw [if_pos h2, if_pos ⟨⟨j, List.mem_cons_self _ _, h2.1.symm⟩, h2.2⟩]
      · rw [if_neg h2, if_neg ?_]
        rintro ⟨⟨j2, hj2, rfl⟩, hlen⟩
        rcases List.mem_cons.mp hj2 with rfl | hmem
        · exact h2 ⟨rfl, hlen⟩
        · exact h1 ⟨⟨j2, hmem, rfl⟩, hlen⟩

/-- `setRowNull` preserves the grid length. -/
theorem setRowNull_length (g : List XlsxValue) (cols i : Nat) :
    (setRowNull g cols i).length = g.length := by
  unfold setRowNull
  exact foldl_set_null_length (cols * i) (List.range cols) g

/-- `setRowNull`, observed at `p`: empty inside row `i` (where the grid is
long enough), untouched elsewhere. -/
theorem setRowNull_get? (g : List XlsxValue) (cols i p : Nat) :
    (setRowNull g cols i).get? p
      = if (cols * i ≤ p ∧ p < cols * i + cols) ∧ p < g.length then some XlsxValue.null
        else g.get? p := by
  unfold setRowNull
  rw [foldl_set_null_get? (cols * i) (List.range cols) g p]
  have hiff : (∃ j ∈ List.range cols, cols * i + j = p)
      ↔ (cols * i ≤ p ∧ p < cols * i + cols) := by
    constructor
    · rintro ⟨j, hj, rfl⟩
      have := List.mem_range.mp hj
      omega
    · rintro ⟨h1, h2⟩
      exact ⟨p - cols * i, List.mem_range.mpr (by omega), by omega⟩
  rw [if_congr (and_congr_left (fun _ => hiff)) rfl rfl]

/-- The pass-2 column callback never returns the recursion request 0. -/
theorem pass2ColBlk_ne_zero (cols i adjust : Nat) (s : Pass2) (col : XNode) (d pj : Nat) :
    (pass2ColBlk cols i adjust s col d pj).2 ≠ 0 := by
  by_cases hi : i = 0
  · subst hi
    simp only [pass2ColBlk, reduceIte]
    cases hval : (xml_find col (cs "c.v.text")).bind XNode.content with
    | none => simp
    | some value =>
      dsimp only
      by_cases hemp : value = []
      · rw [if_pos hemp]; simp
      · rw [if_neg hemp]
        cases hp : parseCellValue (xml_node_attribute col (cs "t")) value with
        | none => simp
        | some v => simp
  · simp only [pass2ColBlk, if_neg hi]
    cases hl : lookupCol s.cnames cols ((xml_node_attribute col (cs "r")).getD [])
        (sub64 ((xml_node_attribute col (cs "r")).getD []).length adjust) with
    | none => simp
    | some j =>
      dsimp only
      cases hval : (xml_find col (cs "c.v.text")).bind XNode.content with
      | none => simp
      | some value =>
        dsimp only
        by_cases hemp : value = []
        · rw [if_pos hemp]; simp
        · rw [if_neg hemp]
          cases hp : parseCellValue (xml_node_attribute col (cs "t")) value with
          | none => simp
          | some v => simp

/-- What the pass-2 column callback does to the grid: nothing (unknown
column), or a null write at a column offset below `cols`, or a null write
followed by the parsed cell value at the same offset. -/
theorem pass2ColBlk_grid_shape (cols i adjust : Nat) (s : Pass2) (col : XNode)
    (d pj : Nat) (hpj : i = 0 → pj < cols) :
    (pass2ColBlk cols i adjust s col d pj).1.grid = s.grid
  ∨ ∃ j, j < cols ∧
      ((pass2ColBlk cols i adjust s col d pj).1.grid
          = s.grid.set (cols * i + j) XlsxValue.null
       ∨ ∃ value v,
           (xml_find col (cs "c.v.text")).bind XNode.content = some value ∧
           parseCellValue (xml_node_attribute col (cs "t")) value = some v ∧
           (pass2ColBlk cols i adjust s col d pj).1.grid
             = (s.grid.set (cols * i + j) XlsxValue.null).set (cols * i + j) v) := by
  by_cases hi : i = 0
  · subst hi
    right
    refine ⟨pj, hpj rfl, ?_⟩
    simp only [pass2ColBlk, reduceIte]
    cases hval : (xml_find col (cs "c.v.text")).bind XNode.content with
    | none => left; rfl
    | some value =>
      dsimp only
      by_cases hemp : value = []
      · rw [if_pos hemp]; left; rfl
      · rw [if_neg hemp]
        cases hp : parseCellValue (xml_node_attribute col (cs "t")) value with
        | none => left; rfl
        | some v => right; exact ⟨value, v, rfl, hp, rfl⟩
  · simp only [pass2ColBlk, if_neg hi]
    cases hl : lookupCol s.cnames cols ((xml_node_attribute col (cs "r")).getD [])
        (sub64 ((xml_node_attribute col (cs "r")).getD []).length adjust) with
    | none => left; rfl
    | some j =>
      right
      refine ⟨j, (lookupCol_spec _ _ _ _ _ hl).1, ?_⟩
      dsimp only
      cases hval : (xml_find col (cs "c.v.text")).bind XNode.content with
      | none => left; rfl
      | some value =>
        dsimp only
        by_cases hemp : value = []
        · rw [if_pos hemp]; left; rfl
        · rw [if_neg hemp]
          cases hp : parseCellValue (xml_node_attribute col (cs "t")) value with
          | none => left; rfl
          | some v => right; exact ⟨value, v, rfl, hp, rfl⟩

/-- The pass-2 column callback preserves the grid length. -/
theorem pass2ColBlk_grid_length (cols i adjust : Nat) (s : Pass2) (col : XNode)
    (d pj : Nat) :
    (pass2ColBlk cols i adjust s col d pj).1.grid.length = s.grid.length := by
  by_cases hi : i = 0
  · subst hi
    simp only [pass2ColBlk, reduceIte]
    cases hval : (xml_find col (cs "c.v.text")).bind XNode.content with
    | none => simp
    | some value =>
      dsimp only
      by_cases hemp : value = []
      · rw [if_pos hemp]; simp
      · rw [if_neg hemp]
        cases hp : parseCellValue (xml_node_attribute col (cs "t")) value with
        | none => simp
        | some v => simp
  · simp only [pass2ColBlk, if_neg hi]
    cases hl : lookupCol s.cnames cols ((xml_node_attribute col (cs "r")).getD [])
        (sub64 ((xml_node_attribute col (cs "r")).getD []).length adjust) with
    | none => simp
    | some j =>
      dsimp only
      cases hval : (xml_find col (cs "c.v.text")).bind XNode.content with
      | none => simp
      | some value =>
        dsimp only
        by_cases hemp : value = []
        · rw [if_pos hemp]; simp
        · rw [if_neg hemp]
          cases hp : parseCellValue (xml_node_attribute col (cs "t")) value with
          | none => simp
          | some v => simp

/-- The pass-2 column callback observed at one grid position: untouched, or
inside row `i`'s range and either empty or a parsed value of this cell. -/
theorem pass2ColBlk_get? (cols i adjust : Nat) (s : Pass2) (col : XNode)
    (d pj : Nat) (hpj : i = 0 → pj < cols) (p : Nat) :
    ((pass2ColBlk cols i adjust s col d pj).1.grid.get? p = s.grid.get? p)
  ∨ ((cols * i ≤ p ∧ p < cols * i + cols) ∧
     ((pass2ColBlk cols i adjust s col d pj).1.grid.get? p = some XlsxValue.null
      ∨ ∃ value v,
          (xml_find col (cs "c.v.text")).bind XNode.content = some value ∧
          parseCellValue (xml_node_attribute col (cs "t")) value = some v ∧
          (pass2ColBlk cols i adjust s col d pj).1.grid.get? p = some v)) := by
  rcases pass2ColBlk_grid_shape cols i adjust s col d pj hpj with
    hg | ⟨j, hj, hg | ⟨value, v, hc, hp2, hg⟩⟩
  · left; rw [hg]
  · rw [hg, set_get?]
    by_cases hcond : p = cols * i + j ∧ p < s.grid.length
    · rw [if_pos hcond]
      exact Or.inr ⟨by omega, Or.inl rfl⟩
    · rw [if_neg hcond]; left; rfl
  · rw [hg, set_get?, List.length_set]
    by_cases hcond : p = cols * i + j ∧ p < s.grid.length
    · rw [if_pos hcond]
      exact Or.inr ⟨by omega, Or.inr ⟨value, v, hc, hp2, rfl⟩⟩
    · rw [if_neg hcond, set_get?, if_neg hcond]; left; rfl

/-- The pass-2 column fold preserves the grid length. -/
theorem pass2ColFold_length (cols i adjust : Nat) :
    ∀ (cells : List XNode) (s : Pass2) (d m : Nat),
      (sibFold (pass2ColBlk cols i adjust) s cells d m).1.grid.length
        = s.grid.length := by
  intro cells
  induction cells with
  | nil => intro s d m; rfl
  | cons c rest ih =>
    intro s d m
    unfold sibFold
    split
    · exact pass2ColBlk_grid_length cols i adjust s c (d + 1) m
    · rw [ih]
      exact pass2ColBlk_grid_length cols i adjust s c (d + 1) m

/-- The pass-2 column fold observed at one grid position: untouched, or
inside row `i`'s range and either empty or a parsed value of one of the
listed cells. -/
theorem pass2ColFold_get? (cols i adjust : Nat) :
    ∀ (cells : List XNode) (s : Pass2) (d m : Nat),
      (i = 0 → m + cells.length ≤ cols) →
      ∀ p,
        ((sibFold (pass2ColBlk cols i adjust) s cells d m).1.grid.get? p
           = s.grid.get? p)
      ∨ ((cols * i ≤ p ∧ p < cols * i + cols) ∧
         ((sibFold (pass2ColBlk cols i adjust) s cells d m).1.grid.get? p
            = some XlsxValue.null
          ∨ ∃ cell ∈ cells, ∃ value v,
              (xml_find cell (cs "c.v.text")).bind XNode.content = some value ∧
              parseCellValue (xml_node_attribute cell (cs "t")) value = some v ∧
              (sibFold (pass2ColBlk cols i adjust) s cells d m).1.grid.get? p
                = some v)) := by
  intro cells
  induction cells with
  | nil => intro s d m _ p; left; rfl
  | cons c rest ih =>
    intro s d m hbound p
    have hpj : i = 0 → m < cols := by
      intro h0
      have := hbound h0
      simp only [List.length_cons] at this
      omega
    unfold sibFold
    split
    · rcases pass2ColBlk_get? cols i adjust s c (d + 1) m hpj p with
        heq | ⟨hin, hnull | ⟨value, v, hc, hp2, hval⟩⟩
      · left; exact heq
      · exact Or.inr ⟨hin, Or.inl hnull⟩
      · exact Or.inr ⟨hin, Or.inr ⟨c, List.mem_cons_self _ _, value, v, hc, hp2, hval⟩⟩
    · have hbound2 : i = 0 → (m + 1) + rest.length ≤ cols := by
        intro h0
        have := hbound h0
        simp only [List.length_cons] at this
        omega
      rcases ih (pass2ColBlk cols i adjust s c (d + 1) m).1 d (m + 1) hbound2 p with
        heq | ⟨hin, hnull | ⟨cell, hcell, value, v, hc, hp2, hval⟩⟩
      · rcases pass2ColBlk_get? cols i adjust s c (d + 1) m hpj p with
          heq2 | ⟨hin2, hnull2 | ⟨value, v, hc, hp2, hval2⟩⟩
        · left; rw [heq, heq2]
        · exact Or.inr ⟨hin2, Or.inl (heq.trans hnull2)⟩
        · exact Or.inr ⟨hin2, Or.inr ⟨c, List.mem_cons_self _ _, value, v, hc, hp2,
            heq.trans hval2⟩⟩
      · exact Or.inr ⟨hin, Or.inl hnull⟩
      · exact Or.inr ⟨hin, Or.inr ⟨cell, List.mem_cons_of_mem _ hcell, value, v, hc,
          hp2, hval⟩⟩

/-- The pass-2 row callback never returns the recursion request 0. -/
theorem pass2RowBlk_ne_zero (cols : Nat) (s : Pass2) (row : XNode) (d i : Nat) :
    ((pass2RowBlk cols) s row d i).2 ≠ 0 := by
  simp only [pass2RowBlk]
  split <;> simp

/-- The pass-2 row callback preserves the grid length. -/
theorem pass2RowBlk_length (cols : Nat) (s : Pass2) (row : XNode) (d i : Nat) :
    ((pass2RowBlk cols) s row d i).1.grid.length = s.grid.length := by
  simp only [pass2RowBlk]
  rw [xml_visit_tree_eq_sibFold row 2 (fun s2 c2 n2 =>
    pass2ColBlk_ne_zero cols i ((xml_node_attribute row (cs "r")).getD []).length s2 c2 3 n2)]
  rw [pass2ColFold_length]
  dsimp only
  exact setRowNull_length s.grid cols i

/-- The pass-2 row callback observed at one grid position: untouched, or
inside row `i`'s range and either empty or a parsed value of one of the
row's cells; and every in-range position backed by the allocation is
empty-or-parsed. -/
theorem pass2RowBlk_get? (cols : Nat) (s : Pass2) (row : XNode) (d i : Nat)
    (hrow : row.children.length ≤ cols) (p : Nat) :
    (((pass2RowBlk cols) s row d i).1.grid.get? p = s.grid.get? p
     ∨ ((cols * i ≤ p ∧ p < cols * i + cols) ∧
        (((pass2RowBlk cols) s row d i).1.grid.get? p = some XlsxValue.null
         ∨ ∃ cell ∈ row.children, ∃ value v,
             (xml_find cell (cs "c.v.text")).bind XNode.content = some value ∧
             parseCellValue (xml_node_attribute cell (cs "t")) value = some v ∧
             ((pass2RowBlk cols) s row d i).1.grid.get? p = some v)))
  ∧ ((cols * i ≤ p ∧ p < cols * i + cols) → p < s.grid.length →
      (((pass2RowBlk cols) s row d i).1.grid.get? p = some XlsxValue.null
       ∨ ∃ cell ∈ row.children, ∃ value v,
           (xml_find cell (cs "c.v.text")).bind XNode.content = some value ∧
           parseCellValue (xml_node_attribute cell (cs "t")) value = some v ∧
           ((pass2RowBlk cols) s row d i).1.grid.get? p = some v)) := by
  have hbody : ((pass2RowBlk cols) s row d i).1
      = (sibFold (pass2ColBlk cols i ((xml_node_attribute row (cs "r")).getD []).length)
          { s with grid := setRowNull s.grid cols i } row.children 2 0).1 := by
    simp only [pass2RowBlk]
    rw [xml_visit_tree_eq_sibFold row 2 (fun s2 c2 n2 =>
      pass2ColBlk_ne_zero cols i ((xml_node_attribute row (cs "r")).getD []).length s2 c2 3 n2)]
  have hfold := pass2ColFold_get? cols i ((xml_node_attribute row (cs "r")).getD []).length
    row.children { s with grid := setRowNull s.grid cols i } 2 0
    (fun _ => by simpa using hrow) p
  rw [← hbody] at hfold
  have hnull := setRowNull_get? s.grid cols i p
  constructor
  · rcases hfold with heq | ⟨hin, hrest⟩
    · by_cases hcond : (cols * i ≤ p ∧ p < cols * i + cols) ∧ p < s.grid.length
      · rw [if_pos hcond] at hnull
        exact Or.inr ⟨hcond.1, Or.inl (by rw [heq]; dsimp only; rw [hnull])⟩
      · rw [if_neg hcond] at hnull
        exact Or.inl (by rw [heq]; dsimp only; rw [hnull])
    · exact Or.inr ⟨hin, hrest⟩
  · intro hin hlen
    rcases hfold with heq | ⟨_, hrest⟩
    · rw [if_pos ⟨hin, hlen⟩] at hnull
      exact Or.inl (by rw [heq]; dsimp only; rw [hnull])
    · exact hrest

/-- The pass-2 row fold preserves the grid length. -/
theorem pass2RowFold_length (cols : Nat) :
    ∀ (l : List XNode) (s : Pass2) (n : Nat),
      (sibFold (pass2RowBlk cols) s l 1 n).1.grid.length = s.grid.length := by
  intro l
  induction l with
  | nil => intro s n; rfl
  | cons c rest ih =>
    intro s n
    unfold sibFold
    split
    · exact pass2RowBlk_length cols s c (1 + 1) n
    · rw [ih]
      exact pass2RowBlk_length cols s c (1 + 1) n

/-- The pass-2 row fold observed at one grid position: untouched, or inside
some processed row's range and either empty or a parsed source cell
value. -/
theorem pass2RowFold_get? (cols : Nat) :
    ∀ (l : List XNode) (s : Pass2) (n : Nat),
      (∀ row ∈ l, row.children.length ≤ cols) →
      ∀ p,
        ((sibFold (pass2RowBlk cols) s l 1 n).1.grid.get? p = s.grid.get? p)
      ∨ ((sibFold (pass2RowBlk cols) s l 1 n).1.grid.get? p = some XlsxValue.null
         ∨ ∃ v, CellProv l v ∧
             (sibFold (pass2RowBlk cols) s l 1 n).1.grid.get? p = some v) := by
  intro l
  induction l with
  | nil => intro s n _ p; left; rfl
  | cons c rest ih =>
    intro s n hrows p
    unfold sibFold
    split
    · rcases (pass2RowBlk_get? cols s c (1 + 1) n
        (hrows c (List.mem_cons_self _ _)) p).1 with heq | ⟨_, hnull | hprov⟩
      · left; exact heq
      · right; left; exact hnull
      · right; right
        obtain ⟨cell, hcell, value, v, hc, hp2, hval⟩ := hprov
        exact ⟨v, ⟨c, List.mem_cons_self _ _, cell, hcell, value, hc, hp2⟩, hval⟩
    · have hrest : ∀ row ∈ rest, row.children.length ≤ cols :=
        fun row hr => hrows row (List.mem_cons_of_mem _ hr)
      rcases ih ((pass2RowBlk cols) s c (1 + 1) n).1 (n + 1) hrest p with
        heq | ⟨hnull | ⟨v, hprov, hval⟩⟩
      · rcases (pass2RowBlk_get? cols s c (1 + 1) n
          (hrows c (List.mem_cons_self _ _)) p).1 with heq2 | ⟨_, hnull2 | hprov2⟩
        · left; rw [heq, heq2]
        · right; left; exact heq.trans hnull2
        · right; right
          obtain ⟨cell, hcell, value, v, hc, hp2, hval2⟩ := hprov2
          exact ⟨v, ⟨c, List.mem_cons_self _ _, cell, hcell, value, hc, hp2⟩,
            heq.trans hval2⟩
      · right; left; exact hnull
      · right; right
        obtain ⟨row, hrow, rest2⟩ := hprov
        exact ⟨v, ⟨row, List.mem_cons_of_mem _ hrow, rest2⟩, hval⟩

/-- On success, every position inside a processed row's range and backed by
the allocation ends up empty or holding a parsed source cell value. -/
theorem pass2RowFold_cover (cols : Nat) :
    ∀ (l : List XNode) (s : Pass2) (n : Nat),
      (∀ row ∈ l, row.children.length ≤ cols) →
      (sibFold (pass2RowBlk cols) s l 1 n).2 = 0 →
      ∀ p i2, n ≤ i2 → i2 < n + l.length →
        cols * i2 ≤ p → p < cols * i2 + cols → p < s.grid.length →
        ((sibFold (pass2RowBlk cols) s l 1 n).1.grid.get? p = some XlsxValue.null
         ∨ ∃ v, CellProv l v ∧
             (sibFold (pass2RowBlk cols) s l 1 n).1.grid.get? p = some v) := by
  intro l
  induction l with
  | nil => intro s n _ _ p i2 h1 h2; simp at h2; omega
  | cons c rest ih =>
    intro s n hrows hok p i2 h1 h2 h3 h4 hlen
    unfold sibFold at hok ⊢
    split at hok
    · rename_i hneg
      have := pass2RowBlk_ne_zero cols s c (1 + 1) n
      omega
    · rename_i hneg
      rw [if_neg hneg]
      by_cases hi2 : i2 = n
      · subst hi2
        rcases (pass2RowBlk_get? cols s c (1 + 1) i2
          (hrows c (List.mem_cons_self _ _)) p).2 ⟨h3, h4⟩ hlen with hnull | hprov
        · rcases pass2RowFold_get? cols rest ((pass2RowBlk cols) s c (1 + 1) i2).1 (i2 + 1)
            (fun row hr => hrows row (List.mem_cons_of_mem _ hr)) p with
            heq | ⟨hnull2 | ⟨v, hprov2, hval2⟩⟩
          · left; exact heq.trans hnull
          · left; exact hnull2
          · right
            obtain ⟨row, hrow, rest2⟩ := hprov2
            exact ⟨v, ⟨row, List.mem_cons_of_mem _ hrow, rest2⟩, hval2⟩
        · obtain ⟨cell, hcell, value, v, hc, hp2, hval⟩ := hprov
          rcases pass2RowFold_get? cols rest ((pass2RowBlk cols) s c (1 + 1) i2).1 (i2 + 1)
            (fun row hr => hrows row (List.mem_cons_of_mem _ hr)) p with
            heq | ⟨hnull2 | ⟨v2, hprov2, hval2⟩⟩
          · right
            exact ⟨v, ⟨c, List.mem_cons_self _ _, cell, hcell, value, hc, hp2⟩,
              heq.trans hval⟩
          · left; exact hnull2
          · right
            obtain ⟨row, hrow, rest2⟩ := hprov2
            exact ⟨v2, ⟨row, List.mem_cons_of_mem _ hrow, rest2⟩, hval2⟩
      · have hlen2 : p < ((pass2RowBlk cols) s c (1 + 1) n).1.grid.length := by
          rw [pass2RowBlk_length]; exact hlen
        rcases ih ((pass2RowBlk cols) s c (1 + 1) n).1 (n + 1)
          (fun row hr => hrows row (List.mem_cons_of_mem _ hr)) hok p i2
          (by omega) (by simp at h2 ⊢; omega) h3 h4 hlen2 with hnull | ⟨v, hprov, hval⟩
        · left; exact hnull
        · right
          obtain ⟨row, hrow, rest2⟩ := hprov
          exact ⟨v, ⟨row, List.mem_cons_of_mem _ hrow, rest2⟩, hval⟩

/-- C9 (amended): for every successfully built sheet whose `sheetData` has
at least one row child, the grid holds exactly `rows × cols` cells, every
row view holds exactly `cols` cells, and every grid position holds either
the empty value or a value parsed from some source cell.  (The
counterexample `C9_empty_sheet_uninit_cex` shows the zero-row case instead
hands out a 1×1 grid of uninitialized memory, so the claim is restricted to
nonempty `sheetData`.) -/
theorem C9_amended_dense_grid_invariant :
    ∀ (archive : Archive) (path : CStr) (strtab : XlsxStrtab)
      (mem : Nat → XlsxValue) (cmem : Nat → CStr) (doc : Xlsx)
      (wsdata sheet : XNode),
      xlsxXlRoot archive path = some wsdata →
      xml_find wsdata (cs "worksheet.sheetData") = some sheet →
      sheet.children ≠ [] →
      xlsxSheet archive path strtab mem cmem = some doc →
      doc.grid.length = doc.rows * doc.cols
      ∧ (∀ i, i < doc.rows →
          ((doc.grid.drop (i * doc.cols)).take doc.cols).length = doc.cols)
      ∧ (∀ p, p < doc.rows * doc.cols →
          doc.grid.get? p = some XlsxValue.null
          ∨ ∃ v, CellProv sheet.children v ∧ doc.grid.get? p = some v) := by
  intro archive path strtab mem cmem doc wsdata sheet h1 h2 hne hdoc
  unfold xlsxSheet at hdoc
  simp only [h1, h2] at hdoc
  rw [xml_visit_tree_eq_sibFold sheet 1
    (fun s2 c2 n2 => pass1RowBlk_ne_zero s2 c2 2 n2)] at hdoc
  split at hdoc
  · cases hdoc
  · rename_i hz1
    rw [not_not] at hz1
    rw [xml_visit_tree_eq_sibFold sheet 1
      (fun s2 c2 n2 => pass2RowBlk_ne_zero _ s2 c2 2 n2)] at hdoc
    split at hdoc
    · cases hdoc
    · rename_i hz2
      rw [not_not] at hz2
      have hd := Option.some.inj hdoc
      subst hd
      have hrows : (sibFold pass1RowBlk ⟨0, 0, 0⟩ sheet.children 1 0).1.rows + 1
          ≤ sheet.children.length := by
        have := pass1RowFold_rows_bound sheet.children ⟨0, 0, 0⟩ 0 (Nat.le_refl 0) hne hz1
        omega
      have hcolsb : ∀ row ∈ sheet.children, row.children.length
          ≤ (sibFold pass1RowBlk ⟨0, 0, 0⟩ sheet.children 1 0).1.cols + 1 :=
        pass1RowFold_cols_bound sheet.children ⟨0, 0, 0⟩ 0 hz1
      have hlen : (sibFold
          (pass2RowBlk ((sibFold pass1RowBlk ⟨0, 0, 0⟩ sheet.children 1 0).1.cols + 1))
          ⟨(List.range (((sibFold pass1RowBlk ⟨0, 0, 0⟩ sheet.children 1 0).1.rows + 1)
              * ((sibFold pass1RowBlk ⟨0, 0, 0⟩ sheet.children 1 0).1.cols + 1))).map mem,
            cmem⟩ sheet.children 1 0).1.grid.length
          = ((sibFold pass1RowBlk ⟨0, 0, 0⟩ sheet.children 1 0).1.rows + 1)
              * ((sibFold pass1RowBlk ⟨0, 0, 0⟩ sheet.children 1 0).1.cols + 1) := by
        rw [pass2RowFold_length]
        simp
      refine ⟨hlen, ?_, ?_⟩
      · intro i hi
        dsimp only at hi ⊢
        rw [List.length_take, List.length_drop]
        rw [show (sibFold
            (pass2RowBlk ((sibFold pass1RowBlk ⟨0, 0, 0⟩ sheet.children 1 0).1.cols + 1))
            ⟨(List.range (((sibFold pass1RowBlk ⟨0, 0, 0⟩ sheet.children 1 0).1.rows + 1)
                * ((sibFold pass1RowBlk ⟨0, 0, 0⟩ sheet.children 1 0).1.cols + 1))).map mem,
              cmem⟩ sheet.children 1 0).1.grid.length
            = ((sibFold pass1RowBlk ⟨0, 0, 0⟩ sheet.children 1 0).1.rows + 1)
                * ((sibFold pass1RowBlk ⟨0, 0, 0⟩ sheet.children 1 0).1.cols + 1) from hlen]
        have hmul : (i + 1) * ((sibFold pass1RowBlk ⟨0, 0, 0⟩ sheet.children 1 0).1.cols + 1)
            ≤ ((sibFold pass1RowBlk ⟨0, 0, 0⟩ sheet.children 1 0).1.rows + 1)
              * ((sibFold pass1RowBlk ⟨0, 0, 0⟩ sheet.children 1 0).1.cols + 1) :=
          Nat.mul_le_mul_right _ (by omega)
        rw [Nat.succ_mul] at hmul
        omega
      · intro p hp
        dsimp only at hp ⊢
        have hdm := Nat.div_add_mod p
          ((sibFold pass1RowBlk ⟨0, 0, 0⟩ sheet.children 1 0).1.cols + 1)
        have hmod := Nat.mod_lt p (show 0 <
          (sibFold pass1RowBlk ⟨0, 0, 0⟩ sheet.children 1 0).1.cols + 1 by omega)
        have hi2 : p / ((sibFold pass1RowBlk ⟨0, 0, 0⟩ sheet.children 1 0).1.cols + 1)
            < (sibFold pass1RowBlk ⟨0, 0, 0⟩ sheet.children 1 0).1.rows + 1 := by
          by_contra hge
          have hmm : ((sibFold pass1RowBlk ⟨0, 0, 0⟩ sheet.children 1 0).1.rows + 1)
              * ((sibFold pass1RowBlk ⟨0, 0, 0⟩ sheet.children 1 0).1.cols + 1)
              ≤ (p / ((sibFold pass1RowBlk ⟨0, 0, 0⟩ sheet.children 1 0).1.cols + 1))
                * ((sibFold pass1RowBlk ⟨0, 0, 0⟩ sheet.children 1 0).1.cols + 1) :=
            Nat.mul_le_mul_right _ (by omega)
          rw [Nat.mul_comm (p / ((sibFold pass1RowBlk ⟨0, 0, 0⟩ sheet.children 1 0).1.cols + 1))] at hmm
          omega
        exact pass2RowFold_cover
          ((sibFold pass1RowBlk ⟨0, 0, 0⟩ sheet.children 1 0).1.cols + 1) sheet.children
          ⟨(List.range (((sibFold pass1RowBlk ⟨0, 0, 0⟩ sheet.children 1 0).1.rows + 1)
              * ((sibFold pass1RowBlk ⟨0, 0, 0⟩ sheet.children 1 0).1.cols + 1))).map mem,
            cmem⟩ 0 hcolsb hz2 p
          (p / ((sibFold pass1RowBlk ⟨0, 0, 0⟩ sheet.children 1 0).1.cols + 1))
          (Nat.zero_le _) (by omega) (by omega) (by omega) (by simp; omega)

set_option maxRecDepth 16384 in
/-- C9 witness: the amended invariant applied at the concrete two-row
document of `archC1`. -/
theorem C9_amended_dense_grid_invariant_witness :
    (⟨⟨[], 0⟩, 2, 3,
      [XlsxValue.int 1, XlsxValue.int 2, XlsxValue.int 3,
       XlsxValue.int 7, XlsxValue.null, XlsxValue.int 9]⟩ : Xlsx).grid.length
      = 2 * 3 := by
  have h := C9_amended_dense_grid_invariant archC1 (cs "worksheet.xml") ⟨[], 0⟩
    memNull cmemNil
    ⟨⟨[], 0⟩, 2, 3,
      [XlsxValue.int 1, XlsxValue.int 2, XlsxValue.int 3,
       XlsxValue.int 7, XlsxValue.null, XlsxValue.int 9]⟩
    (sheetRoot
      [rowNode "1" [cellNode "A1" none "1", cellNode "B1" none "2", cellNode "C1" none "3"],
       rowNode "2" [cellNode "A2" none "7", cellNode "C2" none "9"]])
    (XNode.mk (cs "sheetData") [] none
      [rowNode "1" [cellNode "A1" none "1", cellNode "B1" none "2", cellNode "C1" none "3"],
       rowNode "2" [cellNode "A2" none "7", cellNode "C2" none "9"]])
    rfl rfl (List.cons_ne_nil _ _) (by rfl)
  exact h.1
